import Mathlib

/-!
Shallow embedding of the TMS core (tms_system.py): the grid path planner with
its heap-based A* search, the warehouse/equipment resource model, the task
state machine of `execute_task`, and the greedy scheduler
`optimize_task_schedule`.  Python dictionaries are modelled as
insertion-ordered association lists, and Python
runtime faults are explicit error values.  Python float fields (weights,
volumes, capacities) are modelled as integers: every value the specification
and its scenarios exercise is integral, where binary floating point is exact
and agrees with integer arithmetic.  Remaining Python
faults (TypeError, KeyError) surface as error values.  Unbounded
`while` loops carry an explicit fuel parameter; running out of fuel is a
distinguished error, never a wrong answer.
-/

/-- Grid position, from the `Position` dataclass: integer coordinates, with
structural equality (dataclass `__eq__`) and no ordering (no `__lt__`). -/
structure Pos where
  x : Int
  y : Int
deriving DecidableEq, Repr

/-- Manhattan distance, `Position.distance_to`. -/
def Pos.distance_to (p q : Pos) : Nat :=
  (p.x - q.x).natAbs + (p.y - q.y).natAbs

/-- Python runtime faults that the embedded code can raise, plus fuel
exhaustion for the explicit-fuel loops. -/
inductive PErr where
  | typeError
  | keyError
  | indexError
  | fuelOut
deriving DecidableEq, Repr

section AList

variable {κ α : Type} [DecidableEq κ]

/-- Dictionary lookup over an insertion-ordered association list
(Python `d[k]` / `k in d`). -/
def alget (l : List (κ × α)) (k : κ) : Option α :=
  (l.find? (fun p => p.1 = k)).map (fun p => p.2)

/-- Dictionary write (Python `d[k] = v`): replace in place if the key is
present, otherwise append at the end, preserving insertion order. -/
def alset (l : List (κ × α)) (k : κ) (v : α) : List (κ × α) :=
  if (alget l k).isSome then l.map (fun p => if p.1 = k then (k, v) else p)
  else l ++ [(k, v)]

/-- Dictionary deletion (Python `del d[k]`). -/
def alerase (l : List (κ × α)) (k : κ) : List (κ × α) :=
  l.filter (fun p => ¬ (p.1 = k))

end AList

/-- Heap entry: an (f-score, position) tuple as pushed by `a_star_path`. -/
abbrev Entry := Nat × Pos

/-- Python tuple comparison `(f1, p1) < (f2, p2)`: compares the scores first
and falls through to comparing the `Position` values only on a score tie;
`Position` defines no ordering, so a tie between two distinct positions raises
TypeError (equal tuples compare not-less without touching `<`). -/
def entryLt (a b : Entry) : Except PErr Bool :=
  if a.1 < b.1 then .ok true
  else if b.1 < a.1 then .ok false
  else if a.2 = b.2 then .ok false
  else .error .typeError

/-- CPython `heapq._siftdown`: move `newitem` from index `pos` up toward
`startpos`, comparing against each parent. -/
def siftdownLoop : Nat → Nat → Entry → List Entry → Nat → Except PErr (List Entry)
  | 0, _, _, _, _ => .error .fuelOut
  | Nat.succ fuel, startpos, newitem, heap, pos =>
    if startpos < pos then
      let parentpos := (pos - 1) / 2
      let parent := heap.getD parentpos newitem
      match entryLt newitem parent with
      | .error e => .error e
      | .ok true => siftdownLoop fuel startpos newitem (heap.set pos parent) parentpos
      | .ok false => .ok (heap.set pos newitem)
    else .ok (heap.set pos newitem)

/-- CPython `heapq._siftup`: bubble the hole at `pos` down to a leaf, moving
the smaller child up at each step, then place `newitem` and sift it back up
with `_siftdown`. -/
def siftupLoop : Nat → Nat → Nat → Entry → List Entry → Nat → Except PErr (List Entry)
  | 0, _, _, _, _, _ => .error .fuelOut
  | Nat.succ fuel, endpos, startpos, newitem, heap, pos =>
    let childpos := 2 * pos + 1
    if childpos < endpos then
      let step : Except PErr Nat :=
        if childpos + 1 < endpos then
          match entryLt (heap.getD childpos newitem) (heap.getD (childpos + 1) newitem) with
          | .error e => .error e
          | .ok true => .ok childpos
          | .ok false => .ok (childpos + 1)
        else .ok childpos
      match step with
      | .error e => .error e
      | .ok cp => siftupLoop fuel endpos startpos newitem (heap.set pos (heap.getD cp newitem)) cp
    else siftdownLoop (pos + 1) startpos newitem (heap.set pos newitem) pos

/-- `heapq.heappush`. -/
def heappush (heap : List Entry) (item : Entry) : Except PErr (List Entry) :=
  siftdownLoop (heap.length + 1) 0 item (heap ++ [item]) heap.length

/-- `heapq.heappop`: pop the last element; if the heap is still nonempty,
move the last element to the root and sift it down, returning the old root. -/
def heappop (heap : List Entry) : Except PErr (Entry × List Entry) :=
  match heap.getLast? with
  | none => .error .indexError
  | some lastelt =>
    match heap.dropLast with
    | [] => .ok (lastelt, [])
    | r0 :: rtail =>
      let h2 := (r0 :: rtail).set 0 lastelt
      match h2.get? 0 with
      | none => .error .indexError
      | some newitem =>
        match siftupLoop (h2.length + 1) h2.length 0 newitem h2 0 with
        | .error e => .error e
        | .ok h3 => .ok (r0, h3)

/-- The `PathPlanner` class: grid bounds plus an obstacle set. -/
structure PathPlanner where
  grid_width : Int
  grid_height : Int
  obstacles : List (Int × Int)
deriving DecidableEq, Repr

/-- `PathPlanner.heuristic`: Manhattan distance. -/
def PathPlanner.heuristic (_ : PathPlanner) (pos1 pos2 : Pos) : Nat :=
  (pos1.x - pos2.x).natAbs + (pos1.y - pos2.y).natAbs

/-- `PathPlanner.get_neighbors`: the four direction offsets up/right/down/left
filtered to in-bounds, non-obstacle cells. -/
def PathPlanner.get_neighbors (pl : PathPlanner) (position : Pos) : List Pos :=
  ([(0, 1), (1, 0), (0, -1), (-1, 0)] : List (Int × Int)).filterMap (fun d =>
    let nx := position.x + d.1
    let ny := position.y + d.2
    if 0 ≤ nx ∧ nx < pl.grid_width ∧ 0 ≤ ny ∧ ny < pl.grid_height ∧
        ¬ ((nx, ny) ∈ pl.obstacles) then some (Pos.mk nx ny) else none)

/-- Dictionary key `(pos.x, pos.y)` used by `a_star_path` for its maps. -/
def keyOf (p : Pos) : Int × Int := (p.x, p.y)

/-- Path-reconstruction loop of `a_star_path`: walk `came_from` from the goal
node, append `start`, and reverse. -/
def reconstructLoop :
    Nat → List ((Int × Int) × Pos) → Pos → Pos → List Pos → Except PErr (List Pos)
  | 0, _, _, _, _ => .error .fuelOut
  | Nat.succ fuel, came_from, start, current_pos, path =>
    match alget came_from (keyOf current_pos) with
    | some prev => reconstructLoop fuel came_from start prev (path ++ [current_pos])
    | none => .ok ((path ++ [start]).reverse)

/-- Neighbor-relaxation loop of `a_star_path`: for each neighbor of `current`,
update `came_from`/`g_score`/`f_score` and push onto the open set when the
tentative score improves. -/
def processNeighbors (pl : PathPlanner) (goal current : Pos) :
    List Pos → List Entry → List ((Int × Int) × Pos) →
    List ((Int × Int) × Nat) → List ((Int × Int) × Nat) →
    Except PErr (List Entry × List ((Int × Int) × Pos) ×
      List ((Int × Int) × Nat) × List ((Int × Int) × Nat))
  | [], os, cf, gs, fs => .ok (os, cf, gs, fs)
  | neighbor :: rest, os, cf, gs, fs =>
    match alget gs (keyOf current) with
    | none => .error .keyError
    | some gcur =>
      let tg := gcur + 1
      let nk := keyOf neighbor
      let improves := match alget gs nk with
        | none => true
        | some gn => decide (tg < gn)
      if improves then
        let cf1 := alset cf nk current
        let gs1 := alset gs nk tg
        let fs1 := alset fs nk (tg + pl.heuristic neighbor goal)
        match alget fs1 nk with
        | none => .error .keyError
        | some fval =>
          match heappush os (fval, neighbor) with
          | .error e => .error e
          | .ok os1 => processNeighbors pl goal current rest os1 cf1 gs1 fs1
      else processNeighbors pl goal current rest os cf gs fs

/-- Main `while open_set` loop of `a_star_path`. -/
def aStarLoop (pl : PathPlanner) (start goal : Pos) :
    Nat → List Entry → List ((Int × Int) × Pos) →
    List ((Int × Int) × Nat) → List ((Int × Int) × Nat) → Except PErr (List Pos)
  | 0, _, _, _, _ => .error .fuelOut
  | Nat.succ fuel, open_set, came_from, g_score, f_score =>
    match open_set with
    | [] => .ok []
    | _ :: _ =>
      match heappop open_set with
      | .error e => .error e
      | .ok ((_, current), rest) =>
        if current.x = goal.x ∧ current.y = goal.y then
          reconstructLoop (came_from.length + 1) came_from start current []
        else
          match processNeighbors pl goal current (pl.get_neighbors current)
              rest came_from g_score f_score with
          | .error e => .error e
          | .ok (os, cf, gs, fs) => aStarLoop pl start goal fuel os cf gs fs

/-- `PathPlanner.a_star_path`, with explicit fuel for its unbounded loop.
Python faults raised during the search (TypeError from comparing `Position`
values on an f-score tie, KeyError) surface as error values. -/
def PathPlanner.a_star_path (pl : PathPlanner) (fuel : Nat) (start goal : Pos) :
    Except PErr (List Pos) :=
  if (start.x, start.y) ∈ pl.obstacles ∨ (goal.x, goal.y) ∈ pl.obstacles then .ok []
  else
    aStarLoop pl start goal fuel [(0, start)] []
      [(keyOf start, 0)] [(keyOf start, pl.heuristic start goal)]

/-- `WarehouseType` enum. -/
inductive WarehouseType where
  | terminal
  | product
  | temporary
deriving DecidableEq, Repr

/-- `EquipmentStatus` enum. -/
inductive EquipmentStatus where
  | idle
  | busy
  | maintenance
  | error
deriving DecidableEq, Repr

/-- `TaskStatus` enum. -/
inductive TaskStatus where
  | pending
  | inProgress
  | completed
  | failed
  | cancelled
deriving DecidableEq, Repr

/-- `TaskType` enum. -/
inductive TaskType where
  | shipTransport
  | internalTransfer
  | loading
  | unloading
  | moveEquipment
deriving DecidableEq, Repr

/-- The `Product` dataclass (floats modelled as rationals; fields not touched
by the core operations are omitted). -/
structure Product where
  id : String
  name : String
  weight : Int
  volume : Int
deriving DecidableEq, Repr

/-- The `Warehouse` base class: the subclass is kept as a tag
(`TerminalWarehouse` / `ProductWarehouse` / temporary). -/
structure Warehouse where
  id : String
  wtype : WarehouseType
  position : Pos
  capacity : Int
  products : List (String × Nat)
  current_volume : Int
deriving DecidableEq, Repr

/-- `Warehouse.add_product`: reject (unchanged state) if the added volume would
push `current_volume` past `capacity`, else add the quantity and the volume. -/
def Warehouse.add_product (w : Warehouse) (product_id : String) (quantity : Nat)
    (product_volume : Int) : Bool × Warehouse :=
  let total_volume := product_volume * quantity
  if w.capacity < w.current_volume + total_volume then (false, w)
  else
    (true, { w with
      products := alset w.products product_id ((alget w.products product_id).getD 0 + quantity),
      current_volume := w.current_volume + total_volume })

/-- `Warehouse.remove_product`: reject if the product is absent or its stock is
below `quantity`, else subtract, deleting the entry when it reaches zero. -/
def Warehouse.remove_product (w : Warehouse) (product_id : String) (quantity : Nat)
    (product_volume : Int) : Bool × Warehouse :=
  match alget w.products product_id with
  | none => (false, w)
  | some q =>
    if q < quantity then (false, w)
    else
      (true, { w with
        products :=
          if q - quantity = 0 then alerase w.products product_id
          else alset w.products product_id (q - quantity),
        current_volume := w.current_volume - product_volume * quantity })

/-- Which `Equipment` subclass an instance is. -/
inductive EquipmentKind where
  | crane
  | frameTruck
  | frame
deriving DecidableEq, Repr

/-- The `Equipment` class hierarchy flattened to a record with a kind tag
(fields used by the core operations only). -/
structure Equipment where
  id : String
  kind : EquipmentKind
  position : Pos
  status : EquipmentStatus
  current_task_id : Option String
  capacity : Int
  current_load : Int
deriving DecidableEq, Repr

/-- `can_perform_task`, per subclass: `Crane` handles loading/unloading/move,
`FrameTruck` handles ship transport and internal transfer, `Frame` nothing. -/
def Equipment.can_perform_task (e : Equipment) (task_type : TaskType) : Bool :=
  match e.kind with
  | .crane =>
    match task_type with
    | .loading | .unloading | .moveEquipment => true
    | _ => false
  | .frameTruck =>
    match task_type with
    | .shipTransport | .internalTransfer => true
    | _ => false
  | .frame => false

/-- `Crane.load_product`: reject when the added weight would exceed the
crane's lifting capacity. -/
def Equipment.load_product (e : Equipment) (product_weight : Int) (quantity : Nat) :
    Bool × Equipment :=
  let total_weight := product_weight * quantity
  if e.capacity < e.current_load + total_weight then (false, e)
  else (true, { e with current_load := e.current_load + total_weight })

/-- `Crane.unload_product`: reject when the requested weight exceeds the
current load. -/
def Equipment.unload_product (e : Equipment) (product_weight : Int) (quantity : Nat) :
    Bool × Equipment :=
  let total_weight := product_weight * quantity
  if e.current_load < total_weight then (false, e)
  else (true, { e with current_load := e.current_load - total_weight })

/-- The task `metadata` dictionary, restricted to the keys the core reads and
writes; an absent key reads as a Python KeyError. -/
structure TaskMeta where
  source_warehouse_id : Option String := none
  target_warehouse_id : Option String := none
  products : Option (List (String × Nat)) := none
  product_id : Option String := none
  quantity : Option Nat := none
  failure_reason : Option String := none
deriving DecidableEq, Repr

/-- The `Task` dataclass (timestamps, sub-task tree and ship-plan fields are
not consulted by the operations under study and are omitted; `deadline` is an
abstract tick, `none` meaning no deadline).  Named `TmsTask` because `Task`
already exists in Lean core. -/
structure TmsTask where
  id : String
  task_type : TaskType
  priority : Int := 1
  status : TaskStatus := .pending
  deadline : Option Nat := none
  assigned_equipment : Option String := none
  metadata : TaskMeta := {}
deriving DecidableEq, Repr

/-- The mutable state of a `TMSSystem` instance: the path planner plus the
four entity registries, each an insertion-ordered dictionary. -/
structure TMSSystem where
  planner : PathPlanner
  products : List (String × Product)
  warehouses : List (String × Warehouse)
  equipment : List (String × Equipment)
  tasks : List (String × TmsTask)
deriving DecidableEq, Repr

/-- Per-product-line loop of `_execute_internal_transfer_task`: if the source
holds at least the requested quantity, remove from the source then add to the
target (both boolean results ignored); otherwise skip the line silently.
Warehouses are re-read from the registry at each step, which reproduces the
Python object aliasing (the dict entries are the mutated objects). -/
def transferLoop (source_id target_id : String) :
    TMSSystem → List (String × Nat) → Option String × TMSSystem
  | s, [] => (none, s)
  | s, (product_id, quantity) :: rest =>
    match alget s.warehouses source_id with
    | none => (some "KeyError", s)
    | some source_warehouse =>
      let hasStock := match alget source_warehouse.products product_id with
        | none => false
        | some q => decide (quantity ≤ q)
      if hasStock then
        match alget s.products product_id with
        | none => (some "KeyError", s)
        | some product =>
          let sw1 := (source_warehouse.remove_product product_id quantity product.volume).2
          let s1 := { s with warehouses := alset s.warehouses source_id sw1 }
          match alget s1.warehouses target_id with
          | none => (some "KeyError", s1)
          | some target_warehouse =>
            let tw1 := (target_warehouse.add_product product_id quantity product.volume).2
            let s2 := { s1 with warehouses := alset s1.warehouses target_id tw1 }
            transferLoop source_id target_id s2 rest
      else transferLoop source_id target_id s rest

/-- `_execute_internal_transfer_task`: reads the source/target/products
metadata keys and the two warehouses (KeyError when missing), then runs the
per-line loop. -/
def execInternalTransfer (s : TMSSystem) (task : TmsTask) : Option String × TMSSystem :=
  match task.metadata.source_warehouse_id with
  | none => (some "KeyError", s)
  | some source_id =>
    match task.metadata.target_warehouse_id with
    | none => (some "KeyError", s)
    | some target_id =>
      match task.metadata.products with
      | none => (some "KeyError", s)
      | some products =>
        match alget s.warehouses source_id with
        | none => (some "KeyError", s)
        | some _ =>
          match alget s.warehouses target_id with
          | none => (some "KeyError", s)
          | some _ => transferLoop source_id target_id s products

/-- Per-product-line loop of `_execute_ship_transport_task`: scan the
product-type warehouses in registry order and remove from the first one with
sufficient stock; a line with no qualifying warehouse is silently skipped. -/
def shipLoop : TMSSystem → List (String × Nat) → Option String × TMSSystem
  | s, [] => (none, s)
  | s, (product_id, quantity) :: rest =>
    match s.warehouses.find? (fun p =>
        decide (p.2.wtype = WarehouseType.product) &&
        (match alget p.2.products product_id with
         | none => false
         | some q => decide (quantity ≤ q))) with
    | none => shipLoop s rest
    | some (wid, w) =>
      match alget s.products product_id with
      | none => (some "KeyError", s)
      | some product =>
        let w1 := (w.remove_product product_id quantity product.volume).2
        shipLoop { s with warehouses := alset s.warehouses wid w1 } rest

/-- `_execute_ship_transport_task` (metadata `products` read with a `{}`
default, so an absent key is not an error). -/
def execShipTransport (s : TMSSystem) (task : TmsTask) : Option String × TMSSystem :=
  shipLoop s (task.metadata.products.getD [])

/-- `_execute_loading_task`: take the first idle crane, if any, and load the
requested product onto it (boolean result ignored). -/
def execLoading (s : TMSSystem) (task : TmsTask) : Option String × TMSSystem :=
  match task.metadata.product_id with
  | none => (some "KeyError", s)
  | some product_id =>
    match task.metadata.quantity with
    | none => (some "KeyError", s)
    | some quantity =>
      match s.equipment.find? (fun p =>
          decide (p.2.kind = EquipmentKind.crane) &&
          decide (p.2.status = EquipmentStatus.idle)) with
      | none => (none, s)
      | some (eid, crane) =>
        match alget s.products product_id with
        | none => (some "KeyError", s)
        | some product =>
          let c1 := (crane.load_product product.weight quantity).2
          (none, { s with equipment := alset s.equipment eid c1 })

/-- `_execute_unloading_task`: take the first crane with a nonzero load, if
any, and unload the requested product (boolean result ignored). -/
def execUnloading (s : TMSSystem) (task : TmsTask) : Option String × TMSSystem :=
  match task.metadata.product_id with
  | none => (some "KeyError", s)
  | some product_id =>
    match task.metadata.quantity with
    | none => (some "KeyError", s)
    | some quantity =>
      match s.equipment.find? (fun p =>
          decide (p.2.kind = EquipmentKind.crane) &&
          decide (0 < p.2.current_load)) with
      | none => (none, s)
      | some (eid, crane) =>
        match alget s.products product_id with
        | none => (some "KeyError", s)
        | some product =>
          let c1 := (crane.unload_product product.weight quantity).2
          (none, { s with equipment := alset s.equipment eid c1 })

/-- Task-type dispatch inside `execute_task`; a `move_equipment` task matches
no branch and trivially succeeds. -/
def runTaskEffect (s : TMSSystem) (task : TmsTask) : Option String × TMSSystem :=
  match task.task_type with
  | .shipTransport => execShipTransport s task
  | .internalTransfer => execInternalTransfer s task
  | .loading => execLoading s task
  | .unloading => execUnloading s task
  | .moveEquipment => (none, s)

/-- `TMSSystem.execute_task`.  The whole body runs inside `try`: the task is
unconditionally moved to in-progress, the effect runs (its partial mutations
survive a fault), then on success the task completes and the assigned
equipment — when the reference is a non-empty string — is released back to
idle; any raised fault (including a KeyError while releasing) is caught and
recorded via `fail_task`, leaving all other mutations in place. -/
def TMSSystem.execute_task (s : TMSSystem) (task_id : String) : Bool × TMSSystem :=
  match alget s.tasks task_id with
  | none => (false, s)
  | some task0 =>
    let task1 := { task0 with status := TaskStatus.inProgress }
    let s1 := { s with tasks := alset s.tasks task_id task1 }
    match runTaskEffect s1 task1 with
    | (some reason, s2) =>
      let taskf := { task1 with
        status := TaskStatus.failed,
        metadata := { task1.metadata with failure_reason := some reason } }
      (false, { s2 with tasks := alset s2.tasks task_id taskf })
    | (none, s2) =>
      let task2 := { task1 with status := TaskStatus.completed }
      match task1.assigned_equipment with
      | some equipment_id =>
        if equipment_id = "" then
          (true, { s2 with tasks := alset s2.tasks task_id task2 })
        else
          match alget s2.equipment equipment_id with
          | some equipment =>
            let eq1 := { equipment with
              status := EquipmentStatus.idle,
              current_task_id := none }
            let s3 := { s2 with equipment := alset s2.equipment equipment_id eq1 }
            (true, { s3 with tasks := alset s3.tasks task_id task2 })
          | none =>
            let taskf := { task2 with
              status := TaskStatus.failed,
              metadata := { task2.metadata with failure_reason := some "KeyError" } }
            (false, { s2 with tasks := alset s2.tasks task_id taskf })
      | none => (true, { s2 with tasks := alset s2.tasks task_id task2 })

/-- `TMSSystem.assign_equipment_to_task`: both ids must exist, the equipment
must support the task type and be idle; on success the task records the
equipment and the equipment becomes busy pointing back at the task. -/
def TMSSystem.assign_equipment_to_task (s : TMSSystem) (task_id equipment_id : String) :
    Bool × TMSSystem :=
  match alget s.tasks task_id, alget s.equipment equipment_id with
  | some task, some equipment =>
    if ¬ (equipment.can_perform_task task.task_type) then (false, s)
    else if equipment.status ≠ EquipmentStatus.idle then (false, s)
    else
      (true, { s with
        tasks := alset s.tasks task_id { task with assigned_equipment := some equipment_id },
        equipment := alset s.equipment equipment_id
          { equipment with current_task_id := some task_id, status := EquipmentStatus.busy } })
  | _, _ => (false, s)

/-- `TMSSystem.add_product`: unconditional dictionary write (no duplicate-id
check), always returning success; persistence is an external no-op here. -/
def TMSSystem.add_product (s : TMSSystem) (product : Product) : Bool × TMSSystem :=
  (true, { s with products := alset s.products product.id product })

/-- `TMSSystem.add_warehouse`: unconditional dictionary write, always
returning success. -/
def TMSSystem.add_warehouse (s : TMSSystem) (warehouse : Warehouse) : Bool × TMSSystem :=
  (true, { s with warehouses := alset s.warehouses warehouse.id warehouse })

/-- `PathPlanner.add_obstacle` (Python set insert). -/
def PathPlanner.add_obstacle (pl : PathPlanner) (position : Pos) : PathPlanner :=
  { pl with obstacles :=
      if (position.x, position.y) ∈ pl.obstacles then pl.obstacles
      else pl.obstacles ++ [(position.x, position.y)] }

/-- `TMSSystem.add_equipment`: unconditional dictionary write plus marking the
equipment's cell as an obstacle, always returning success. -/
def TMSSystem.add_equipment (s : TMSSystem) (equipment : Equipment) : Bool × TMSSystem :=
  (true, { s with
    equipment := alset s.equipment equipment.id equipment,
    planner := s.planner.add_obstacle equipment.position })

/-- Ordering on optional deadlines used by the scheduler's sort key:
`x.deadline or datetime.max`, so a missing deadline sorts last. -/
def dlLt (a b : Option Nat) : Bool :=
  match a, b with
  | none, _ => false
  | some _, none => true
  | some x, some y => decide (x < y)

/-- Non-strict comparison on the sort key `(-priority, deadline or max)` of
`optimize_task_schedule`. -/
def taskKeyLe (t1 t2 : TmsTask) : Bool :=
  if t1.priority = t2.priority then ¬ dlLt t2.deadline t1.deadline
  else decide (-t1.priority < -t2.priority)

/-- Stable insertion of a task into an already-sorted list: it lands after
every task whose key is less than or equal to its own. -/
def insertSortedTask (a : TmsTask) : List TmsTask → List TmsTask
  | [] => [a]
  | b :: bs => if taskKeyLe b a then b :: insertSortedTask a bs else a :: b :: bs

/-- Stable sort by `(-priority, deadline or max)`, as Python `sorted`. -/
def sortTasks (l : List TmsTask) : List TmsTask :=
  l.foldl (fun acc a => insertSortedTask a acc) []

/-- `_calculate_task_equipment_distance`: distance from the equipment to the
task's source warehouse when the metadata names one (KeyError when that
warehouse id is unknown), else 0. -/
def TMSSystem.calc_task_equipment_distance (s : TMSSystem) (task : TmsTask)
    (equipment : Equipment) : Except PErr Nat :=
  match task.metadata.source_warehouse_id with
  | some wid =>
    match alget s.warehouses wid with
    | some w => .ok (equipment.position.distance_to w.position)
    | none => .error .keyError
  | none => .ok 0

/-- Python `min(..., key=...)` over the remaining candidates: keeps the first
element attaining the minimum, evaluating the key left to right. -/
def minByDistance (s : TMSSystem) (task : TmsTask) :
    Equipment → Nat → List Equipment → Except PErr Equipment
  | best, _, [] => .ok best
  | best, bestd, e :: rest =>
    match s.calc_task_equipment_distance task e with
    | .error err => .error err
    | .ok d =>
      if d < bestd then minByDistance s task e d rest
      else minByDistance s task best bestd rest

/-- `min(suitable_equipment, key=distance)` of `optimize_task_schedule`. -/
def TMSSystem.best_equipment (s : TMSSystem) (task : TmsTask) (l : List Equipment) :
    Except PErr (Option Equipment) :=
  match l with
  | [] => .ok none
  | e :: rest =>
    match s.calc_task_equipment_distance task e with
    | .error err => .error err
    | .ok d => (minByDistance s task e d rest).map some

/-- Greedy assignment loop of `optimize_task_schedule` over the sorted pending
tasks: recompute the idle suitable candidates against the current state, pick
the nearest, attempt the assignment, and record the task id on success.  An
uncaught fault from the distance key aborts the pass, keeping the partial
assignments (first component of the result). -/
def optimizeLoop : TMSSystem → List String → List TmsTask →
    Option PErr × List String × TMSSystem
  | s, sched, [] => (none, sched, s)
  | s, sched, task :: rest =>
    let suitable := (s.equipment.map Prod.snd).filter (fun eq =>
      eq.can_perform_task task.task_type && decide (eq.status = EquipmentStatus.idle))
    match suitable with
    | [] => optimizeLoop s sched rest
    | _ :: _ =>
      match s.best_equipment task suitable with
      | .error e => (some e, sched, s)
      | .ok none => optimizeLoop s sched rest
      | .ok (some best) =>
        match s.assign_equipment_to_task task.id best.id with
        | (true, s1) => optimizeLoop s1 (sched ++ [task.id]) rest
        | (false, s1) => optimizeLoop s1 sched rest

/-- `TMSSystem.optimize_task_schedule`: select pending tasks, sort them by
priority then deadline, and run the greedy assignment pass. -/
def TMSSystem.optimize_task_schedule (s : TMSSystem) :
    Option PErr × List String × TMSSystem :=
  let pending := (s.tasks.map Prod.snd).filter (fun t =>
    decide (t.status = TaskStatus.pending))
  optimizeLoop s [] (sortTasks pending)

/-- A position lies inside the planner's grid bounds. -/
def inBounds (pl : PathPlanner) (p : Pos) : Prop :=
  0 ≤ p.x ∧ p.x < pl.grid_width ∧ 0 ≤ p.y ∧ p.y < pl.grid_height

instance (pl : PathPlanner) (p : Pos) : Decidable (inBounds pl p) := by
  unfold inBounds; infer_instance

/-- A position is in bounds and not an obstacle. -/
def validCell (pl : PathPlanner) (p : Pos) : Prop :=
  inBounds pl p ∧ ¬ ((p.x, p.y) ∈ pl.obstacles)

instance (pl : PathPlanner) (p : Pos) : Decidable (validCell pl p) := by
  unfold validCell; infer_instance

/-- Two positions are 4-adjacent (Manhattan distance exactly 1). -/
def adjacentStep (a b : Pos) : Prop := a.distance_to b = 1

instance (a b : Pos) : Decidable (adjacentStep a b) := by
  unfold adjacentStep; infer_instance

/-- A sequence is a valid grid path from `start` to `goal`: nonempty with the
right endpoints, every position in bounds and obstacle-free, and consecutive
positions 4-adjacent. -/
def validGridPath (pl : PathPlanner) (start goal : Pos) (path : List Pos) : Prop :=
  path.head? = some start ∧ path.getLast? = some goal ∧
  (∀ q ∈ path, validCell pl q) ∧ List.Chain' adjacentStep path

/-- Search invariant on an open-set entry: its position is the start node or
has a predecessor recorded in `came_from`. -/
def EntryOk (start : Pos) (cf : List ((Int × Int) × Pos)) (e : Entry) : Prop :=
  e.2 = start ∨ ∃ w, (keyOf e.2, w) ∈ cf

/-- Search invariant on the predecessor map: every recorded edge goes from a
node to one of its grid neighbors, and every recorded predecessor is itself
the start node or has a recorded predecessor. -/
def CFInv (pl : PathPlanner) (start : Pos) (cf : List ((Int × Int) × Pos)) : Prop :=
  ∀ kv ∈ cf, (∃ n : Pos, keyOf n = kv.1 ∧ n ∈ pl.get_neighbors kv.2) ∧
    (kv.2 = start ∨ ∃ w, (keyOf kv.2, w) ∈ cf)

/-- Total volume of a warehouse inventory under a fixed per-product unit
volume, `Σ quantity × volume`. -/
def sumVolume (vol : String → Int) : List (String × Nat) → Int
  | [] => 0
  | p :: rest => vol p.1 * (p.2 : Int) + sumVolume vol rest

/-- One inventory command against a warehouse. -/
inductive WOp where
  | stockIn (product_id : String) (quantity : Nat)
  | stockOut (product_id : String) (quantity : Nat)

/-- Run one inventory command, using the product's fixed unit volume. -/
def applyWOp (vol : String → Int) (w : Warehouse) : WOp → Warehouse
  | .stockIn pid q => (w.add_product pid q (vol pid)).2
  | .stockOut pid q => (w.remove_product pid q (vol pid)).2

/-- Run a sequence of inventory commands. -/
def runWOps (vol : String → Int) (w : Warehouse) (ops : List WOp) : Warehouse :=
  ops.foldl (applyWOp vol) w

/-- A freshly constructed warehouse (`Warehouse.__init__`): empty inventory,
zero current volume. -/
def emptyWarehouse (id : String) (wt : WarehouseType) (pos : Pos) (capacity : Int) :
    Warehouse :=
  ⟨id, wt, pos, capacity, [], 0⟩

/-- Warehouse bookkeeping invariant under a fixed per-product unit volume:
capacity is unchanged, inventory keys are unique, `current_volume` is exactly
the volume sum, and it never exceeds capacity. -/
def WInvariant (vol : String → Int) (cap : Int) (w : Warehouse) : Prop :=
  w.capacity = cap ∧ (w.products.map Prod.fst).Nodup ∧
  w.current_volume = sumVolume vol w.products ∧ w.current_volume ≤ cap

/-- Scheduler-pass invariant: every task id recorded in the schedule so far
refers to an existing task whose assigned equipment exists and is busy. -/
def SchedInv (s : TMSSystem) (sched : List String) : Prop :=
  ∀ tid ∈ sched, ∃ t e eq, alget s.tasks tid = some t ∧
    t.assigned_equipment = some e ∧ alget s.equipment e = some eq ∧
    eq.status = EquipmentStatus.busy

/-- Mutual exclusion among the tasks of a schedule: two different recorded
task ids never share an assigned equipment id. -/
def SchedDistinct (s : TMSSystem) (sched : List String) : Prop :=
  ∀ t1 ∈ sched, ∀ t2 ∈ sched, t1 ≠ t2 →
    ∀ u1 u2 e1 e2, alget s.tasks t1 = some u1 → alget s.tasks t2 = some u2 →
      u1.assigned_equipment = some e1 → u2.assigned_equipment = some e2 → e1 ≠ e2

/-! Concrete fixtures used by the claim theorems and witnesses. -/

/-- Scenario A grid: obstacle-free 5×5. -/
def gridScenA : PathPlanner := ⟨5, 5, []⟩

/-- Minimal tie grid: obstacle-free 2×2. -/
def gridTie : PathPlanner := ⟨2, 2, []⟩

/-- Obstacle-free 4×1 line grid (no f-score ties arise on it). -/
def gridLine : PathPlanner := ⟨4, 1, []⟩

/-- Fixture product: unit volume 2, unit weight 1. -/
def fixProduct : Product := ⟨"P", "steel", 1, 2⟩

/-- Fixture source warehouse holding 3 units of `"P"`. -/
def fixSourceWh : Warehouse := ⟨"S", .terminal, ⟨0, 0⟩, 100, [("P", 3)], 6⟩

/-- Fixture empty target warehouse with ample capacity. -/
def fixTargetWh : Warehouse := ⟨"W2", .terminal, ⟨1, 1⟩, 100, [], 0⟩

/-- Fixture empty target warehouse whose capacity 4 cannot hold 3 units of
volume 2. -/
def fixSmallTargetWh : Warehouse := ⟨"W2", .terminal, ⟨1, 1⟩, 4, [], 0⟩

/-- Internal-transfer metadata moving `q` units of `"P"` from `"S"` to
`"W2"`. -/
def fixMetaGood (q : Nat) : TaskMeta :=
  { source_warehouse_id := some "S"
    target_warehouse_id := some "W2"
    products := some [("P", q)] }

/-- Internal-transfer metadata whose source warehouse id is not registered. -/
def fixMetaBad (q : Nat) : TaskMeta :=
  { source_warehouse_id := some "NOPE"
    target_warehouse_id := some "W2"
    products := some [("P", q)] }

/-- Fixture frame truck already busy on task `"T"`. -/
def fixTruckBusy : Equipment := ⟨"E", .frameTruck, ⟨0, 0⟩, .busy, some "T", 100, 0⟩

/-- Fixture idle frame trucks. -/
def fixTruckIdle : Equipment := ⟨"E", .frameTruck, ⟨0, 0⟩, .idle, none, 100, 0⟩

/-- Second idle frame truck. -/
def fixTruckIdle2 : Equipment := ⟨"E2", .frameTruck, ⟨2, 2⟩, .idle, none, 100, 0⟩

/-- System for C1: a pending internal-transfer task with assigned equipment
whose source warehouse id is unknown, so its effect raises KeyError. -/
def fixC1sys : TMSSystem :=
  ⟨⟨20, 20, []⟩, [], [], [("E", fixTruckBusy)],
    [("T", { id := "T", task_type := .internalTransfer, assigned_equipment := some "E",
             metadata := fixMetaBad 5 })]⟩

/-- The C2 task: transfer 5 units of `"P"` while the source holds 3. -/
def fixC2task : TmsTask :=
  { id := "T", task_type := .internalTransfer, metadata := fixMetaGood 5 }

/-- System for C2: transfer requests 5 units of `"P"` but the source holds
only 3. -/
def fixC2sys : TMSSystem :=
  ⟨⟨20, 20, []⟩, [("P", fixProduct)], [("S", fixSourceWh), ("W2", fixTargetWh)], [],
    [("T", fixC2task)]⟩

/-- System for C3: transfer of 3 units (volume 6) into a target of capacity 4,
so the target add fails after the source remove succeeded. -/
def fixC3sys : TMSSystem :=
  ⟨⟨20, 20, []⟩, [("P", fixProduct)], [("S", fixSourceWh), ("W2", fixSmallTargetWh)], [],
    [("T", { id := "T", task_type := .internalTransfer, metadata := fixMetaGood 3 })]⟩

/-- System for C8: a well-formed transfer of 1 unit, executed twice. -/
def fixC8sys : TMSSystem :=
  ⟨⟨20, 20, []⟩, [("P", fixProduct)], [("S", fixSourceWh), ("W2", fixTargetWh)], [],
    [("T", { id := "T", task_type := .internalTransfer, metadata := fixMetaGood 1 })]⟩

/-- State after the first (successful) execution of the C8 task. -/
def fixC8once : TMSSystem := (fixC8sys.execute_task "T").2

/-- System for the C7 counterexample before any call: one idle truck, one
pending transfer task. -/
def fixC7base : TMSSystem :=
  ⟨⟨20, 20, []⟩, [("P", fixProduct)], [("S", fixSourceWh), ("W2", fixTargetWh)],
    [("E", fixTruckIdle)],
    [("T1", { id := "T1", task_type := .internalTransfer, metadata := fixMetaGood 1 })]⟩

/-- C7 counterexample, step 1: assign the truck to T1. -/
def fixC7assigned : TMSSystem := (fixC7base.assign_equipment_to_task "T1" "E").2

/-- C7 counterexample, step 2: execute T1 — it completes, releasing the truck
to idle while T1 keeps its stale `assigned_equipment` reference. -/
def fixC7done : TMSSystem := (fixC7assigned.execute_task "T1").2

/-- Second pending task of the C7 counterexample. -/
def fixC7task2 : TmsTask :=
  { id := "T2", task_type := .internalTransfer, metadata := fixMetaGood 1 }

/-- C7 counterexample, step 3: a new pending task T2 is created. -/
def fixC7final : TMSSystem :=
  { fixC7done with tasks := alset fixC7done.tasks "T2" fixC7task2 }

/-- System for the C7 witness: two pending tasks and two idle trucks, so one
scheduling pass assigns both. -/
def fixC7wsys : TMSSystem :=
  ⟨⟨20, 20, []⟩, [], [], [("E", fixTruckIdle), ("E2", fixTruckIdle2)],
    [("T1", { id := "T1", task_type := .internalTransfer }),
     ("T2", { id := "T2", task_type := .internalTransfer })]⟩

/-- Expected T1 record after the C7-witness scheduling pass. -/
def fixC7wtask1A : TmsTask :=
  { id := "T1", task_type := .internalTransfer, assigned_equipment := some "E" }

/-- Expected T2 record after the C7-witness scheduling pass. -/
def fixC7wtask2A : TmsTask :=
  { id := "T2", task_type := .internalTransfer, assigned_equipment := some "E2" }

/-- Products sharing the id `"P"` but nothing else, for the duplicate-id
counterexample. -/
def fixProductV2 : Product := ⟨"P", "cement", 7, 9⟩

/-- System for C9: the id `"P"` is already registered. -/
def fixC9sys : TMSSystem := ⟨⟨20, 20, []⟩, [("P", fixProduct)], [], [], []⟩

/-! Association-list (Python dict) lemmas. -/

section AListLemmas

variable {κ α : Type} [DecidableEq κ]

theorem alget_cons (p : κ × α) (l : List (κ × α)) (k : κ) :
    alget (p :: l) k = if p.1 = k then some p.2 else alget l k := by
  by_cases h : p.1 = k <;> simp [alget, List.find?_cons, h]

theorem alget_append (l₁ l₂ : List (κ × α)) (k : κ) :
    alget (l₁ ++ l₂) k =
      match alget l₁ k with
      | some v => some v
      | none => alget l₂ k := by
  induction l₁ with
  | nil => simp [alget]
  | cons p t ih =>
    by_cases h : p.1 = k <;> simp [alget_cons, h, ih]

theorem alget_map_replace (l : List (κ × α)) (k : κ) (v : α)
    (h : (alget l k).isSome) :
    alget (l.map (fun p => if p.1 = k then (k, v) else p)) k = some v := by
  induction l with
  | nil => simp [alget] at h
  | cons p t ih =>
    by_cases hp : p.1 = k
    · simp [List.map_cons, if_pos hp, alget_cons]
    · rw [alget_cons, if_neg hp] at h
      simp [List.map_cons, if_neg hp, alget_cons, hp, ih h]

theorem alget_map_replace_ne (l : List (κ × α)) (k k' : κ) (v : α) (hk : k' ≠ k) :
    alget (l.map (fun p => if p.1 = k then (k, v) else p)) k' = alget l k' := by
  induction l with
  | nil => simp
  | cons p t ih =>
    by_cases hp : p.1 = k
    · have hkk : ¬ (k = k') := fun hh => hk hh.symm
      have hpk : ¬ (p.1 = k') := fun hh => hk (hh ▸ hp)
      simp [List.map_cons, if_pos hp, alget_cons, hkk, hpk, ih]
    · simp [List.map_cons, if_neg hp, alget_cons, ih]

theorem alget_alset_self (l : List (κ × α)) (k : κ) (v : α) :
    alget (alset l k v) k = some v := by
  by_cases h : (alget l k).isSome
  · rw [alset, if_pos h]; exact alget_map_replace l k v h
  · rw [alset, if_neg h, alget_append]
    have hn : alget l k = none := by
      cases hh : alget l k
      · rfl
      · rw [hh] at h; simp at h
    rw [hn]
    simp [alget_cons]

theorem alget_alset_ne (l : List (κ × α)) (k k' : κ) (v : α) (hk : k' ≠ k) :
    alget (alset l k v) k' = alget l k' := by
  by_cases h : (alget l k).isSome
  · rw [alset, if_pos h]; exact alget_map_replace_ne l k k' v hk
  · rw [alset, if_neg h, alget_append]
    have hkk : ¬ (k = k') := fun hh => hk hh.symm
    cases hh : alget l k'
    · simp [alget_cons, hkk, alget]
    · rfl

theorem mem_alset {x : κ × α} {l : List (κ × α)} {k : κ} {v : α}
    (h : x ∈ alset l k v) : x ∈ l ∨ x = (k, v) := by
  rw [alset] at h
  by_cases hs : (alget l k).isSome
  · rw [if_pos hs] at h
    rcases List.mem_map.mp h with ⟨p, hp, he⟩
    by_cases hpk : p.1 = k
    · right; rw [if_pos hpk] at he; exact he.symm
    · left; rw [if_neg hpk] at he; exact he ▸ hp
  · rw [if_neg hs] at h
    rcases List.mem_append.mp h with h1 | h1
    · exact Or.inl h1
    · right; simpa using h1

theorem alget_mem {l : List (κ × α)} {k : κ} {v : α} (h : alget l k = some v) :
    (k, v) ∈ l := by
  rw [alget] at h
  cases hf : l.find? (fun p => p.1 = k) with
  | none => rw [hf] at h; simp at h
  | some p =>
    rw [hf] at h
    have hm := List.mem_of_find?_eq_some hf
    have hp := List.find?_some hf
    simp at hp h
    have : p = (k, v) := by
      cases p
      simp_all
    exact this ▸ hm

theorem alget_eq_none {l : List (κ × α)} {k : κ} (h : alget l k = none) :
    ∀ v, (k, v) ∉ l := by
  intro v hv
  rw [alget] at h
  cases hf : l.find? (fun p => p.1 = k) with
  | some p => rw [hf] at h; simp at h
  | none =>
    have := List.find?_eq_none.mp hf (k, v) hv
    simp at this

theorem alget_isSome_of_mem {l : List (κ × α)} {k : κ} {v : α} (h : (k, v) ∈ l) :
    (alget l k).isSome := by
  cases hh : alget l k
  · exact absurd h (alget_eq_none hh v)
  · rfl

theorem key_mem_alset (l : List (κ × α)) (k : κ) (v : α) :
    ∃ v', (k, v') ∈ alset l k v :=
  ⟨v, alget_mem (alget_alset_self l k v)⟩

theorem keys_mono_alset {l : List (κ × α)} {k0 : κ} (k : κ) (v : α)
    (h : ∃ v0, (k0, v0) ∈ l) : ∃ v1, (k0, v1) ∈ alset l k v := by
  by_cases hk : k0 = k
  · exact hk ▸ key_mem_alset l k v
  · rcases h with ⟨v0, hv0⟩
    have hs := alget_isSome_of_mem hv0
    cases hh : alget (alset l k v) k0 with
    | none =>
      rw [alget_alset_ne l k k0 v hk] at hh
      rw [hh] at hs; simp at hs
    | some v1 => exact ⟨v1, alget_mem hh⟩

end AListLemmas

/-- C1: the claim says the equipment-release step runs on the failure path of
`execute_task` exactly as on the success path.  In the code the release is
only reached after `complete_task()`: on the failing run below (effect raises
KeyError) the task ends Failed while its assigned equipment keeps status Busy
and its stale `current_task_id`, so the release does not run on failure. -/
theorem execute_task_failure_leaves_equipment_busy :
    ((fixC1sys.execute_task "T").1 = false) ∧
    ((alget (fixC1sys.execute_task "T").2.tasks "T").map TmsTask.status
      = some .failed) ∧
    ((alget (fixC1sys.execute_task "T").2.equipment "E").map Equipment.status
      = some .busy) ∧
    ((alget (fixC1sys.execute_task "T").2.equipment "E").map Equipment.current_task_id
      = some (some "T")) := by
  decide

/-- C2 counterexample: an internal transfer requesting 5 units when the source
holds 3 makes `execute_task` return success with the task Completed and no
failure reason recorded (the line is silently skipped), contradicting the
claimed transition to Failed with an InsufficientStock reason.  The target
warehouse is indeed unchanged. -/
theorem insufficient_stock_completes_counterexample :
    ((fixC2sys.execute_task "T").1 = true) ∧
    ((alget (fixC2sys.execute_task "T").2.tasks "T").map TmsTask.status
      = some .completed) ∧
    ((alget (fixC2sys.execute_task "T").2.tasks "T").map
        (fun t => t.metadata.failure_reason) = some none) ∧
    (alget (fixC2sys.execute_task "T").2.warehouses "W2" = some fixTargetWh) := by
  decide

/-- C3: the claim says a transfer line whose target add would exceed capacity
is skipped with no state change.  In the code the source removal runs first
and the failing target add is ignored: transferring 3 units (volume 6) into a
capacity-4 target empties the source while the target stays empty — the stock
vanishes and the task still completes. -/
theorem transfer_target_overflow_loses_stock :
    ((fixC3sys.execute_task "T").1 = true) ∧
    ((alget (fixC3sys.execute_task "T").2.tasks "T").map TmsTask.status
      = some .completed) ∧
    ((alget fixC3sys.warehouses "S").map Warehouse.products = some [("P", 3)]) ∧
    ((alget (fixC3sys.execute_task "T").2.warehouses "S").map Warehouse.products
      = some []) ∧
    ((alget (fixC3sys.execute_task "T").2.warehouses "W2").map Warehouse.products
      = some []) := by
  decide

/-- C5: the claim says `a_star_path` returns a 9-position path on the
obstacle-free 5×5 grid from (0,0) to (4,4).  The open-set entries are
`(f_score, Position)` tuples and `Position` defines no ordering, so the first
f-score tie during `heappush` raises TypeError instead of returning a path. -/
theorem a_star_scenario_a_raises_type_error :
    gridScenA.a_star_path 100 ⟨0, 0⟩ ⟨4, 4⟩ = .error .typeError := rfl

/-- C6: the claim says f-score ties are broken by an insertion sequence
number and positions are never compared.  The code pushes bare
`(f_score, Position)` tuples, so already on the 2×2 obstacle-free grid the
two f=2 frontier nodes get compared as `Position` values and the query
faults with TypeError rather than returning a list. -/
theorem a_star_tie_break_raises_type_error :
    gridTie.a_star_path 100 ⟨0, 0⟩ ⟨1, 1⟩ = .error .typeError := rfl

/-- C8 counterexample: after the transfer task has completed (1 unit moved to
the target), calling `execute_task` on it again succeeds and re-applies the
effect — the target's stock grows from 1 to 2 — because `execute_task` never
checks the task's status. -/
theorem execute_task_reapplies_effect_counterexample :
    ((alget fixC8once.tasks "T").map TmsTask.status = some .completed) ∧
    ((alget fixC8once.warehouses "W2").map Warehouse.products = some [("P", 1)]) ∧
    ((fixC8once.execute_task "T").1 = true) ∧
    ((alget (fixC8once.execute_task "T").2.warehouses "W2").map Warehouse.products
      = some [("P", 2)]) := by
  decide

/-- C9 counterexample: registering a second product with the already-present
id `"P"` is not rejected — the call returns success and the registry entry is
overwritten by the new product. -/
theorem add_product_duplicate_overwrites_counterexample :
    ((fixC9sys.add_product fixProductV2).1 = true) ∧
    (alget (fixC9sys.add_product fixProductV2).2.products "P" = some fixProductV2) ∧
    fixProductV2 ≠ fixProduct := by
  decide

/-- C9 amended: `add_product`, `add_warehouse` and `add_equipment` perform no
duplicate-id check: each always returns success and (over)writes the registry
entry for the given id, and `add_equipment` additionally marks the
equipment's cell as an obstacle. -/
theorem register_duplicate_overwrites (s : TMSSystem) (p : Product) (w : Warehouse)
    (e : Equipment) :
    ((s.add_product p).1 = true ∧ alget (s.add_product p).2.products p.id = some p) ∧
    ((s.add_warehouse w).1 = true ∧
      alget (s.add_warehouse w).2.warehouses w.id = some w) ∧
    ((s.add_equipment e).1 = true ∧
      alget (s.add_equipment e).2.equipment e.id = some e ∧
      (e.position.x, e.position.y) ∈ (s.add_equipment e).2.planner.obstacles) := by
  refine ⟨⟨rfl, alget_alset_self _ _ _⟩, ⟨rfl, alget_alset_self _ _ _⟩,
    rfl, alget_alset_self _ _ _, ?_⟩
  show (e.position.x, e.position.y) ∈ (s.planner.add_obstacle e.position).obstacles
  rw [PathPlanner.add_obstacle]
  by_cases h : (e.position.x, e.position.y) ∈ s.planner.obstacles
  · simp only [if_pos h]; exact h
  · simp [h]

/-- C2 amended: when an internal-transfer line requests more than the source's
stock of that product, the line is silently skipped: `execute_task` returns
success, the task ends Completed with its failure-reason metadata untouched,
and the warehouse registry — in particular the target — is unchanged. -/
theorem insufficient_stock_line_skipped_completed
    (s : TMSSystem) (tid src tgt pid : String) (q : Nat) (t : TmsTask)
    (sw tw : Warehouse)
    (ht : alget s.tasks tid = some t)
    (htt : t.task_type = .internalTransfer)
    (hae : t.assigned_equipment = none)
    (hsrc : t.metadata.source_warehouse_id = some src)
    (htgt : t.metadata.target_warehouse_id = some tgt)
    (hprod : t.metadata.products = some [(pid, q)])
    (hsw : alget s.warehouses src = some sw)
    (htw : alget s.warehouses tgt = some tw)
    (hstock : (alget sw.products pid).getD 0 < q) :
    (s.execute_task tid).1 = true ∧
    ((alget (s.execute_task tid).2.tasks tid).map TmsTask.status = some .completed) ∧
    ((alget (s.execute_task tid).2.tasks tid).map (fun u => u.metadata.failure_reason)
      = some t.metadata.failure_reason) ∧
    (s.execute_task tid).2.warehouses = s.warehouses := by
  have hfalse : (match alget sw.products pid with
      | none => false
      | some q0 => decide (q ≤ q0)) = false := by
    cases halget : alget sw.products pid with
    | none => rfl
    | some q0 =>
      rw [halget] at hstock
      simp only [Option.getD_some] at hstock
      simp [Nat.not_le, hstock]
  simp only [TMSSystem.execute_task, runTaskEffect, execInternalTransfer, transferLoop,
    ht, htt, hae, hsrc, htgt, hprod, hsw, htw, hfalse, Bool.false_eq_true, if_false,
    alget_alset_self, Option.map_some]
  exact ⟨trivial, rfl, rfl, trivial⟩

/-- C2 witness: the amended theorem applied to the concrete C2 system. -/
theorem insufficient_stock_line_skipped_completed_witness :
    (alget fixC2sys.tasks "T" = some fixC2task ∧
      fixC2task.task_type = .internalTransfer ∧
      fixC2task.assigned_equipment = none ∧
      fixC2task.metadata.source_warehouse_id = some "S" ∧
      fixC2task.metadata.target_warehouse_id = some "W2" ∧
      fixC2task.metadata.products = some [("P", 5)] ∧
      alget fixC2sys.warehouses "S" = some fixSourceWh ∧
      alget fixC2sys.warehouses "W2" = some fixTargetWh ∧
      (alget fixSourceWh.products "P").getD 0 < 5) ∧
    ((fixC2sys.execute_task "T").1 = true ∧
      ((alget (fixC2sys.execute_task "T").2.tasks "T").map TmsTask.status
        = some .completed) ∧
      ((alget (fixC2sys.execute_task "T").2.tasks "T").map
        (fun u => u.metadata.failure_reason) = some fixC2task.metadata.failure_reason) ∧
      (fixC2sys.execute_task "T").2.warehouses = fixC2sys.warehouses) :=
  ⟨⟨by decide, by decide, by decide, by decide, by decide, by decide, by decide,
    by decide, by decide⟩,
   insufficient_stock_line_skipped_completed fixC2sys "T" "S" "W2" "P" 5 fixC2task
     fixSourceWh fixTargetWh (by decide) (by decide) (by decide) (by decide)
     (by decide) (by decide) (by decide) (by decide) (by decide)⟩

/-- C8 amended: `execute_task` checks only that the task id exists, never its
status — Completed and Failed are not terminal for it.  Whatever the prior
status, the call restarts the task (`start_execution`) and re-runs its effect,
leaving the stored task Completed or Failed. -/
theorem execute_task_no_status_precondition (s : TMSSystem) (tid : String)
    (t : TmsTask) (ht : alget s.tasks tid = some t) :
    ∃ t', alget (s.execute_task tid).2.tasks tid = some t' ∧
      (t'.status = .completed ∨ t'.status = .failed) := by
  simp only [TMSSystem.execute_task, ht]
  rcases hE : runTaskEffect
      { s with tasks := alset s.tasks tid ({ t with status := TaskStatus.inProgress }) }
      ({ t with status := TaskStatus.inProgress }) with ⟨o, s2⟩
  cases o with
  | some r =>
    exact ⟨_, alget_alset_self _ _ _, Or.inr rfl⟩
  | none =>
    cases hA : t.assigned_equipment with
    | none =>
      simp only [hA]
      exact ⟨_, alget_alset_self _ _ _, Or.inl rfl⟩
    | some eqid =>
      simp only [hA]
      by_cases he : eqid = ""
      · simp only [if_pos he]
        exact ⟨_, alget_alset_self _ _ _, Or.inl rfl⟩
      · simp only [if_neg he]
        cases hq : alget s2.equipment eqid with
        | some equipment =>
          simp only []
          exact ⟨_, alget_alset_self _ _ _, Or.inl rfl⟩
        | none =>
          simp only []
          exact ⟨_, alget_alset_self _ _ _, Or.inr rfl⟩

/-- C8 witness: the amended theorem applied to the already-completed concrete
task of `fixC8once`. -/
theorem execute_task_no_status_precondition_witness :
    ((alget fixC8once.tasks "T").map TmsTask.status = some .completed) ∧
    (∃ t', alget (fixC8once.execute_task "T").2.tasks "T" = some t' ∧
      (t'.status = .completed ∨ t'.status = .failed)) := by
  refine ⟨by decide, ?_⟩
  cases hc : alget fixC8once.tasks "T" with
  | none => exact absurd hc (by decide)
  | some u => exact execute_task_no_status_precondition fixC8once "T" u hc

/-! Warehouse volume-invariant development (C4). -/

theorem sumVolume_append (vol : String → Int) (l₁ l₂ : List (String × Nat)) :
    sumVolume vol (l₁ ++ l₂) = sumVolume vol l₁ + sumVolume vol l₂ := by
  induction l₁ with
  | nil => simp [sumVolume]
  | cons p t ih => simp [sumVolume, ih]; ring

theorem sumVolume_nonneg (vol : String → Int) (hvol : ∀ pid, 0 ≤ vol pid)
    (l : List (String × Nat)) : 0 ≤ sumVolume vol l := by
  induction l with
  | nil => simp [sumVolume]
  | cons p t ih =>
    have h1 : 0 ≤ vol p.1 * (p.2 : Int) :=
      mul_nonneg (hvol p.1) (Int.natCast_nonneg p.2)
    simpa [sumVolume] using add_nonneg h1 ih

theorem mem_keys_of_alget_isSome {l : List (String × Nat)} {pid : String}
    (h : (alget l pid).isSome) : pid ∈ l.map Prod.fst := by
  cases hh : alget l pid with
  | none => rw [hh] at h; simp at h
  | some q => exact List.mem_map.mpr ⟨(pid, q), alget_mem hh, rfl⟩

theorem not_mem_keys_of_alget_none {l : List (String × Nat)} {pid : String}
    (h : alget l pid = none) : pid ∉ l.map Prod.fst := by
  intro hm
  rcases List.mem_map.mp hm with ⟨p, hp, he⟩
  exact alget_eq_none h p.2 (by cases p; simp_all)

theorem map_replace_id {l : List (String × Nat)} {pid : String} {n : Nat}
    (h : pid ∉ l.map Prod.fst) :
    l.map (fun p => if p.1 = pid then (pid, n) else p) = l := by
  induction l with
  | nil => rfl
  | cons p t ih =>
    simp only [List.map_cons, List.mem_cons, not_or] at h ⊢
    rw [if_neg fun he => h.1 he.symm, ih h.2]

theorem sumVolume_alset_present (vol : String → Int) {l : List (String × Nat)}
    {pid : String} {q0 : Nat} (n : Nat)
    (hnd : (l.map Prod.fst).Nodup) (hget : alget l pid = some q0) :
    sumVolume vol (alset l pid n) = sumVolume vol l - vol pid * q0 + vol pid * n := by
  induction l with
  | nil => simp [alget] at hget
  | cons p t ih =>
    have hs : (alget (p :: t) pid).isSome := by rw [hget]; rfl
    rw [alset, if_pos hs, List.map_cons]
    rw [alget_cons] at hget
    simp only [List.map_cons, List.nodup_cons] at hnd
    by_cases hp : p.1 = pid
    · rw [if_pos hp] at hget ⊢
      have hq0 : p.2 = q0 := by injection hget
      have ht : t.map (fun p => if p.1 = pid then (pid, n) else p) = t :=
        map_replace_id (hp ▸ hnd.1)
      rw [ht]
      simp only [sumVolume, hq0, hp]
      ring
    · rw [if_neg hp] at hget ⊢
      have hs2 : (alget t pid).isSome := by rw [hget]; rfl
      have := ih hnd.2 hget
      rw [alset, if_pos hs2] at this
      simp only [sumVolume, this]
      ring

theorem sumVolume_alset_absent (vol : String → Int) {l : List (String × Nat)}
    {pid : String} (n : Nat) (hget : alget l pid = none) :
    sumVolume vol (alset l pid n) = sumVolume vol l + vol pid * n := by
  have hs : ¬ (alget l pid).isSome := by rw [hget]; simp
  rw [alset, if_neg hs, sumVolume_append]
  simp [sumVolume]

theorem sumVolume_alerase (vol : String → Int) {l : List (String × Nat)}
    {pid : String} {q0 : Nat}
    (hnd : (l.map Prod.fst).Nodup) (hget : alget l pid = some q0) :
    sumVolume vol (alerase l pid) = sumVolume vol l - vol pid * q0 := by
  induction l with
  | nil => simp [alget] at hget
  | cons p t ih =>
    rw [alget_cons] at hget
    simp only [List.map_cons, List.nodup_cons] at hnd
    by_cases hp : p.1 = pid
    · rw [if_pos hp] at hget
      have hq0 : p.2 = q0 := by injection hget
      have ht : alerase t pid = t := by
        rw [alerase]
        refine List.filter_eq_self.mpr fun a ha => ?_
        have : a.1 ≠ pid := fun he => (hp ▸ hnd.1) (he ▸ List.mem_map.mpr ⟨a, ha, rfl⟩)
        simp [this]
      rw [alerase] at ht ⊢
      simp only [List.filter_cons, decide_eq_true_eq]
      rw [if_neg (by simp [hp])]
      rw [ht]
      simp only [sumVolume, hq0, hp]
      ring
    · rw [if_neg hp] at hget
      have := ih hnd.2 hget
      rw [alerase] at this ⊢
      simp only [List.filter_cons]
      rw [if_pos (by simp [hp])]
      simp only [sumVolume, this]
      ring

theorem keys_alset_present {l : List (String × Nat)} {pid : String} (n : Nat)
    (hs : (alget l pid).isSome) :
    (alset l pid n).map Prod.fst = l.map Prod.fst := by
  rw [alset, if_pos hs, List.map_map]
  refine List.map_congr_left fun p _ => ?_
  by_cases hp : p.1 = pid
  · simp [hp]
  · simp [hp]

theorem keys_alset_absent {l : List (String × Nat)} {pid : String} (n : Nat)
    (hget : alget l pid = none) :
    (alset l pid n).map Prod.fst = l.map Prod.fst ++ [pid] := by
  have hs : ¬ (alget l pid).isSome := by rw [hget]; simp
  rw [alset, if_neg hs]
  simp

theorem keys_nodup_alerase {l : List (String × Nat)} (pid : String)
    (hnd : (l.map Prod.fst).Nodup) : ((alerase l pid).map Prod.fst).Nodup :=
  hnd.sublist (List.Sublist.map Prod.fst (List.filter_sublist l))

theorem add_product_fail_unchanged (w : Warehouse) (pid : String) (q : Nat) (v : Int)
    (h : (w.add_product pid q v).1 = false) : (w.add_product pid q v).2 = w := by
  rw [Warehouse.add_product] at h ⊢
  split at h
  · split
    · rfl
    · simp_all
  · simp at h

theorem winv_add (vol : String → Int) (cap : Int) (w : Warehouse) (pid : String)
    (q : Nat) (_hvol : ∀ p, 0 ≤ vol p) (hw : WInvariant vol cap w) :
    WInvariant vol cap (w.add_product pid q (vol pid)).2 := by
  obtain ⟨hcap, hnd, hsum, hle⟩ := hw
  rw [Warehouse.add_product]
  split
  · exact ⟨hcap, hnd, hsum, hle⟩
  · rename_i hguard
    push_neg at hguard
    cases hget : alget w.products pid with
    | none =>
      refine ⟨hcap, ?_, ?_, hcap ▸ hguard⟩
      · rw [keys_alset_absent _ hget]
        exact List.nodup_append.mpr ⟨hnd, List.nodup_singleton pid,
          by simpa using not_mem_keys_of_alget_none hget⟩
      · dsimp only
        simp only [Option.getD_none]
        rw [sumVolume_alset_absent vol _ hget, hsum]
        push_cast
        ring
    | some q0 =>
      refine ⟨hcap, ?_, ?_, hcap ▸ hguard⟩
      · rw [keys_alset_present _ (by rw [hget]; rfl)]
        exact hnd
      · dsimp only
        simp only [Option.getD_some]
        rw [sumVolume_alset_present vol _ hnd hget, hsum]
        push_cast
        ring

theorem winv_remove (vol : String → Int) (cap : Int) (w : Warehouse) (pid : String)
    (q : Nat) (hvol : ∀ p, 0 ≤ vol p) (hw : WInvariant vol cap w) :
    WInvariant vol cap (w.remove_product pid q (vol pid)).2 := by
  obtain ⟨hcap, hnd, hsum, hle⟩ := hw
  rw [Warehouse.remove_product]
  cases hget : alget w.products pid with
  | none => exact ⟨hcap, hnd, hsum, hle⟩
  | some q0 =>
    dsimp only
    by_cases hq : q0 < q
    · rw [if_pos hq]; exact ⟨hcap, hnd, hsum, hle⟩
    · rw [if_neg hq]
      rw [Nat.not_lt] at hq
      have hvq : (0 : Int) ≤ vol pid * q :=
        mul_nonneg (hvol pid) (Int.natCast_nonneg q)
      refine ⟨hcap, ?_, ?_, ?_⟩
      · split
        · exact keys_nodup_alerase pid hnd
        · rw [keys_alset_present _ (by rw [hget]; rfl)]
          exact hnd
      · split
        · rename_i hz
          have hq0 : q0 = q := by omega
          rw [sumVolume_alerase vol hnd hget, hsum, hq0]
        · rename_i hz
          rw [sumVolume_alset_present vol _ hnd hget, hsum]
          have : ((q0 - q : Nat) : Int) = (q0 : Int) - (q : Int) := by
            push_cast [Nat.cast_sub hq]
            ring
          rw [this]
          ring
      · dsimp only
        linarith [hvq, hle, hcap]

theorem winv_runWOps (vol : String → Int) (cap : Int) (hvol : ∀ p, 0 ≤ vol p) :
    ∀ (ops : List WOp) (w : Warehouse), WInvariant vol cap w →
      WInvariant vol cap (runWOps vol w ops) := by
  intro ops
  induction ops with
  | nil => intro w hw; exact hw
  | cons op rest ih =>
    intro w hw
    rw [runWOps, List.foldl_cons]
    cases op with
    | stockIn pid q => exact ih _ (winv_add vol cap w pid q hvol hw)
    | stockOut pid q => exact ih _ (winv_remove vol cap w pid q hvol hw)

/-- C4: starting from a fresh warehouse of nonnegative capacity, for every
sequence of `add_product`/`remove_product` calls that each use the product's
fixed nonnegative unit volume, `current_volume` equals `Σ quantity × volume`
over the stored products and satisfies `0 ≤ current_volume ≤ capacity`; and
any add that reports failure leaves the warehouse (quantities and volume)
completely unchanged. -/
theorem warehouse_volume_invariant (idw : String) (wt : WarehouseType) (ps : Pos)
    (cap : Int) (vol : String → Int) (ops : List WOp)
    (hcap : 0 ≤ cap) (hvol : ∀ pid, 0 ≤ vol pid) :
    ((runWOps vol (emptyWarehouse idw wt ps cap) ops).current_volume
      = sumVolume vol (runWOps vol (emptyWarehouse idw wt ps cap) ops).products) ∧
    (0 ≤ (runWOps vol (emptyWarehouse idw wt ps cap) ops).current_volume) ∧
    ((runWOps vol (emptyWarehouse idw wt ps cap) ops).current_volume ≤ cap) ∧
    (∀ pid q, ((runWOps vol (emptyWarehouse idw wt ps cap) ops).add_product pid q
        (vol pid)).1 = false →
      ((runWOps vol (emptyWarehouse idw wt ps cap) ops).add_product pid q (vol pid)).2
        = runWOps vol (emptyWarehouse idw wt ps cap) ops) := by
  have h0 : WInvariant vol cap (emptyWarehouse idw wt ps cap) :=
    ⟨rfl, by simp [emptyWarehouse], by simp [emptyWarehouse, sumVolume],
      by simpa [emptyWarehouse] using hcap⟩
  obtain ⟨hc, hnd, hsum, hle⟩ := winv_runWOps vol cap hvol ops _ h0
  refine ⟨hsum, ?_, hle, fun pid q h => add_product_fail_unchanged _ pid q _ h⟩
  rw [hsum]
  exact sumVolume_nonneg vol hvol _

/-- C4 witness: Scenario B — capacity 10, unit volume 2, a single add of
quantity 4 — satisfies the invariant, and the failing follow-up add of
quantity 2 leaves the warehouse unchanged. -/
theorem warehouse_volume_invariant_witness :
    ((0 : Int) ≤ 10 ∧ ∀ pid : String, (0 : Int) ≤ (fun _ => (2 : Int)) pid) ∧
    (((runWOps (fun _ => 2) (emptyWarehouse "W" .terminal ⟨0, 0⟩ 10)
        [WOp.stockIn "P" 4]).current_volume
      = sumVolume (fun _ => 2) (runWOps (fun _ => 2)
        (emptyWarehouse "W" .terminal ⟨0, 0⟩ 10) [WOp.stockIn "P" 4]).products) ∧
    (0 ≤ (runWOps (fun _ => 2) (emptyWarehouse "W" .terminal ⟨0, 0⟩ 10)
        [WOp.stockIn "P" 4]).current_volume) ∧
    ((runWOps (fun _ => 2) (emptyWarehouse "W" .terminal ⟨0, 0⟩ 10)
        [WOp.stockIn "P" 4]).current_volume ≤ 10) ∧
    (∀ pid q, ((runWOps (fun _ => 2) (emptyWarehouse "W" .terminal ⟨0, 0⟩ 10)
        [WOp.stockIn "P" 4]).add_product pid q ((fun _ => (2 : Int)) pid)).1 = false →
      ((runWOps (fun _ => 2) (emptyWarehouse "W" .terminal ⟨0, 0⟩ 10)
        [WOp.stockIn "P" 4]).add_product pid q ((fun _ => (2 : Int)) pid)).2
        = runWOps (fun _ => 2) (emptyWarehouse "W" .terminal ⟨0, 0⟩ 10)
            [WOp.stockIn "P" 4])) :=
  ⟨⟨by decide, fun _ => by norm_num⟩,
    warehouse_volume_invariant "W" .terminal ⟨0, 0⟩ 10 (fun _ => 2)
      [WOp.stockIn "P" 4] (by decide) (fun _ => by norm_num)⟩

/-! Scheduler mutual-exclusion development (C7). -/

theorem assign_false_state (s : TMSSystem) (tid eqid : String)
    (h : (s.assign_equipment_to_task tid eqid).1 = false) :
    (s.assign_equipment_to_task tid eqid).2 = s := by
  rw [TMSSystem.assign_equipment_to_task] at h ⊢
  cases hT : alget s.tasks tid with
  | none => cases hE : alget s.equipment eqid <;> rfl
  | some tk =>
    cases hE : alget s.equipment eqid with
    | none => rfl
    | some eq =>
      rw [hT, hE] at h
      dsimp only at h ⊢
      split_ifs at h ⊢ with h1 h2
      · rfl
      · rfl

theorem assign_true_spec (s : TMSSystem) (tid eqid : String)
    (h : (s.assign_equipment_to_task tid eqid).1 = true) :
    ∃ tk eq, alget s.tasks tid = some tk ∧ alget s.equipment eqid = some eq ∧
      eq.status = EquipmentStatus.idle ∧
      (s.assign_equipment_to_task tid eqid).2 = { s with
        tasks := alset s.tasks tid ({ tk with assigned_equipment := some eqid }),
        equipment := alset s.equipment eqid
          ({ eq with current_task_id := some tid,
                     status := EquipmentStatus.busy }) } := by
  rw [TMSSystem.assign_equipment_to_task] at h ⊢
  cases hT : alget s.tasks tid with
  | none => rw [hT] at h; simp at h
  | some tk =>
    cases hE : alget s.equipment eqid with
    | none => rw [hT, hE] at h; simp at h
    | some eq =>
      rw [hT, hE] at h
      dsimp only at h ⊢
      split_ifs at h ⊢ with h1 h2
      exact ⟨tk, eq, rfl, rfl, not_not.mp h2, rfl⟩

theorem sched_inv_after_assign (s s' : TMSSystem) (sched : List String)
    (tid eqid : String) (tk : TmsTask) (eq : Equipment)
    (_hT : alget s.tasks tid = some tk) (_hE : alget s.equipment eqid = some eq)
    (hsT : s'.tasks = alset s.tasks tid ({ tk with assigned_equipment := some eqid }))
    (hsE : s'.equipment = alset s.equipment eqid
      ({ eq with current_task_id := some tid, status := EquipmentStatus.busy }))
    (hinv : SchedInv s sched) :
    SchedInv s' (sched ++ [tid]) := by
  intro t ht
  rcases List.mem_append.mp ht with hmem | hmem
  · rcases hinv t hmem with ⟨u, e, ep, hgt, hgae, hgeq, hbusy⟩
    by_cases hteq : t = tid
    · subst hteq
      exact ⟨_, eqid, _, by rw [hsT]; exact alget_alset_self _ _ _, rfl,
        by rw [hsE]; exact alget_alset_self _ _ _, rfl⟩
    · by_cases heq : e = eqid
      · exact ⟨u, e, _, by rw [hsT, alget_alset_ne _ _ _ _ hteq]; exact hgt, hgae,
          by rw [heq, hsE]; exact alget_alset_self _ _ _, rfl⟩
      · exact ⟨u, e, ep, by rw [hsT, alget_alset_ne _ _ _ _ hteq]; exact hgt, hgae,
          by rw [hsE, alget_alset_ne _ _ _ _ heq]; exact hgeq, hbusy⟩
  · rcases List.mem_singleton.mp hmem with rfl
    exact ⟨_, eqid, _, by rw [hsT]; exact alget_alset_self _ _ _, rfl,
      by rw [hsE]; exact alget_alset_self _ _ _, rfl⟩

theorem sched_distinct_after_assign (s s' : TMSSystem) (sched : List String)
    (tid eqid : String) (tk : TmsTask) (eq : Equipment)
    (_hT : alget s.tasks tid = some tk) (hE : alget s.equipment eqid = some eq)
    (hI : eq.status = EquipmentStatus.idle)
    (hsT : s'.tasks = alset s.tasks tid ({ tk with assigned_equipment := some eqid }))
    (hinv : SchedInv s sched) (hdis : SchedDistinct s sched) :
    SchedDistinct s' (sched ++ [tid]) := by
  have key : ∀ t ∈ sched, t ≠ tid → ∀ u e, alget s'.tasks t = some u →
      u.assigned_equipment = some e → e ≠ eqid := by
    intro t ht htne u e hgu hae hcon
    rcases hinv t ht with ⟨u', e', ep, hgt, hgae, hgeq, hbusy⟩
    rw [hsT, alget_alset_ne _ _ _ _ htne, hgt] at hgu
    injection hgu with hu
    subst hu
    rw [hgae] at hae
    injection hae with he
    subst hcon
    rw [he] at hgeq
    rw [hE] at hgeq
    injection hgeq with hep
    rw [← hep, hI] at hbusy
    exact absurd hbusy (by simp)
  have keytid : ∀ u e, alget s'.tasks tid = some u →
      u.assigned_equipment = some e → e = eqid := by
    intro u e hgu hae
    rw [hsT, alget_alset_self] at hgu
    injection hgu with hu
    subst hu
    simp only [] at hae
    injection hae with he
    exact he.symm
  intro t1 h1 t2 h2 hne u1 u2 e1 e2 hg1 hg2 ha1 ha2
  rcases List.mem_append.mp h1 with m1 | m1 <;>
    rcases List.mem_append.mp h2 with m2 | m2
  · by_cases b1 : t1 = tid <;> by_cases b2 : t2 = tid
    · exact absurd (b1.trans b2.symm) hne
    · rw [b1] at hg1
      have he1 : e1 = eqid := keytid u1 e1 hg1 ha1
      have he2 : e2 ≠ eqid := key t2 m2 b2 u2 e2 hg2 ha2
      rw [he1]; exact fun h => he2 h.symm
    · rw [b2] at hg2
      have he2 : e2 = eqid := keytid u2 e2 hg2 ha2
      have he1 : e1 ≠ eqid := key t1 m1 b1 u1 e1 hg1 ha1
      rw [he2]; exact he1
    · rw [hsT, alget_alset_ne _ _ _ _ b1] at hg1
      rw [hsT, alget_alset_ne _ _ _ _ b2] at hg2
      exact hdis t1 m1 t2 m2 hne u1 u2 e1 e2 hg1 hg2 ha1 ha2
  · have m2eq : t2 = tid := List.mem_singleton.mp m2
    by_cases b1 : t1 = tid
    · exact absurd (b1.trans m2eq.symm) hne
    · rw [m2eq] at hg2
      have he2 : e2 = eqid := keytid u2 e2 hg2 ha2
      have he1 : e1 ≠ eqid := key t1 m1 b1 u1 e1 hg1 ha1
      rw [he2]; exact he1
  · have m1eq : t1 = tid := List.mem_singleton.mp m1
    by_cases b2 : t2 = tid
    · exact absurd (m1eq.trans b2.symm) hne
    · rw [m1eq] at hg1
      have he1 : e1 = eqid := keytid u1 e1 hg1 ha1
      have he2 : e2 ≠ eqid := key t2 m2 b2 u2 e2 hg2 ha2
      rw [he1]; exact fun h => he2 h.symm
  · exact absurd ((List.mem_singleton.mp m1).trans
      (List.mem_singleton.mp m2).symm) hne

theorem optimizeLoop_mutex (ts : List TmsTask) :
    ∀ (s : TMSSystem) (sched : List String),
      SchedInv s sched → SchedDistinct s sched →
      SchedInv (optimizeLoop s sched ts).2.2 (optimizeLoop s sched ts).2.1 ∧
      SchedDistinct (optimizeLoop s sched ts).2.2 (optimizeLoop s sched ts).2.1 := by
  induction ts with
  | nil => intro s sched h1 h2; exact ⟨h1, h2⟩
  | cons task rest ih =>
    intro s sched h1 h2
    rw [optimizeLoop]
    cases hsuit : (s.equipment.map Prod.snd).filter (fun eq =>
        eq.can_perform_task task.task_type &&
        decide (eq.status = EquipmentStatus.idle)) with
    | nil => exact ih s sched h1 h2
    | cons x xs =>
      cases hbe : s.best_equipment task (x :: xs) with
      | error e => exact ⟨h1, h2⟩
      | ok ob =>
        cases ob with
        | none => exact ih s sched h1 h2
        | some best =>
          dsimp only
          cases hassign : s.assign_equipment_to_task task.id best.id with
          | mk b s1 =>
            cases b with
            | false =>
              have hs1 : s1 = s := by
                have := assign_false_state s task.id best.id (by rw [hassign])
                rw [hassign] at this
                exact this
              rw [hs1]
              exact ih s sched h1 h2
            | true =>
              rcases assign_true_spec s task.id best.id (by rw [hassign])
                with ⟨tk, eq, hT, hE, hI, hs'⟩
              rw [hassign] at hs'
              dsimp only at hs'
              have hsT : s1.tasks = alset s.tasks task.id
                  ({ tk with assigned_equipment := some best.id }) := by
                rw [hs']
              have hsE : s1.equipment = alset s.equipment best.id
                  ({ eq with current_task_id := some task.id,
                             status := EquipmentStatus.busy }) := by
                rw [hs']
              exact ih s1 (sched ++ [task.id])
                (sched_inv_after_assign s s1 sched task.id best.id tk eq
                  hT hE hsT hsE h1)
                (sched_distinct_after_assign s s1 sched task.id best.id tk eq
                  hT hE hI hsT h1 h2)

/-- C7 amended: within a single `optimize_task_schedule()` pass, mutual
exclusion holds among the tasks the pass assigned: two different task ids in
the returned schedule never end up with the same `assigned_equipment`,
because a claim requires the equipment to be Idle and flips it to Busy
immediately.  (Across passes the property can fail, since a completed task
keeps its stale `assigned_equipment` reference — see the counterexample.) -/
theorem optimize_pass_assigns_distinct_equipment (s : TMSSystem)
    (t1 t2 : String) (u1 u2 : TmsTask) (e1 e2 : String)
    (h1 : t1 ∈ (s.optimize_task_schedule).2.1)
    (h2 : t2 ∈ (s.optimize_task_schedule).2.1)
    (hne : t1 ≠ t2)
    (hg1 : alget (s.optimize_task_schedule).2.2.tasks t1 = some u1)
    (hg2 : alget (s.optimize_task_schedule).2.2.tasks t2 = some u2)
    (ha1 : u1.assigned_equipment = some e1)
    (ha2 : u2.assigned_equipment = some e2) :
    e1 ≠ e2 := by
  have hmain := optimizeLoop_mutex
    (sortTasks ((s.tasks.map Prod.snd).filter (fun t =>
      decide (t.status = TaskStatus.pending)))) s []
    (fun t ht => absurd ht (List.not_mem_nil t))
    (fun t ht => absurd ht (List.not_mem_nil t))
  rw [TMSSystem.optimize_task_schedule] at h1 h2 hg1 hg2
  exact hmain.2 t1 h1 t2 h2 hne u1 u2 e1 e2 hg1 hg2 ha1 ha2

/-- C7 counterexample: the claim as stated — after a single pass no equipment
id appears as `assigned_equipment` of two different tasks — fails, because a
successfully executed task keeps its stale reference: T1 was assigned truck
`"E"`, executed (Completed, truck released to Idle), and the next
`optimize_task_schedule` call assigns the same `"E"` to the new pending task
T2, leaving both T1 and T2 referencing `"E"`. -/
theorem optimize_double_reference_counterexample :
    ((alget (fixC7final.optimize_task_schedule).2.2.tasks "T1").map
      TmsTask.assigned_equipment = some (some "E")) ∧
    ((alget (fixC7final.optimize_task_schedule).2.2.tasks "T1").map
      TmsTask.status = some .completed) ∧
    ((alget (fixC7final.optimize_task_schedule).2.2.tasks "T2").map
      TmsTask.assigned_equipment = some (some "E")) ∧
    ("T1" : String) ≠ "T2" := by
  decide

/-- C7 witness: the amended theorem applied to a pass that assigns two tasks
to the two idle trucks. -/
theorem optimize_pass_assigns_distinct_equipment_witness :
    (("T1" ∈ (fixC7wsys.optimize_task_schedule).2.1) ∧
     ("T2" ∈ (fixC7wsys.optimize_task_schedule).2.1) ∧
     (("T1" : String) ≠ "T2") ∧
     (alget (fixC7wsys.optimize_task_schedule).2.2.tasks "T1" = some fixC7wtask1A) ∧
     (alget (fixC7wsys.optimize_task_schedule).2.2.tasks "T2" = some fixC7wtask2A) ∧
     (fixC7wtask1A.assigned_equipment = some "E") ∧
     (fixC7wtask2A.assigned_equipment = some "E2")) ∧
    ("E" : String) ≠ "E2" :=
  ⟨⟨by decide, by decide, by decide, by decide, by decide, by decide, by decide⟩,
   optimize_pass_assigns_distinct_equipment fixC7wsys "T1" "T2"
     fixC7wtask1A fixC7wtask2A "E" "E2" (by decide) (by decide) (by decide)
     (by decide) (by decide) (by decide) (by decide)⟩

/-! A* path-validity development (C10). -/

theorem keyOf_inj {a b : Pos} (h : keyOf a = keyOf b) : a = b := by
  cases a; cases b
  simp only [keyOf, Prod.mk.injEq] at h
  simp [h.1, h.2]

theorem pos_ext {a b : Pos} (hx : a.x = b.x) (hy : a.y = b.y) : a = b := by
  cases a; cases b; simp_all

theorem distance_to_comm (a b : Pos) : a.distance_to b = b.distance_to a := by
  simp only [Pos.distance_to]
  omega

theorem mem_get_neighbors {pl : PathPlanner} {c n : Pos}
    (h : n ∈ pl.get_neighbors c) : validCell pl n ∧ adjacentStep c n := by
  rw [PathPlanner.get_neighbors] at h
  rcases List.mem_filterMap.mp h with ⟨d, hd, hfd⟩
  simp only [List.mem_cons, List.not_mem_nil, or_false] at hd
  have main : ∀ dx dy : Int, d = (dx, dy) → dx.natAbs + dy.natAbs = 1 →
      validCell pl n ∧ adjacentStep c n := by
    intro dx dy hde habs
    subst hde
    dsimp only at hfd
    split at hfd
    · rename_i hcond
      injection hfd with hn
      subst hn
      refine ⟨⟨⟨hcond.1, hcond.2.1, hcond.2.2.1, hcond.2.2.2.1⟩, hcond.2.2.2.2⟩, ?_⟩
      show c.distance_to (Pos.mk (c.x + dx) (c.y + dy)) = 1
      rw [Pos.distance_to]
      have h1 : c.x - (c.x + dx) = -dx := by ring
      have h2 : c.y - (c.y + dy) = -dy := by ring
      rw [h1, h2, Int.natAbs_neg, Int.natAbs_neg, habs]
    · exact absurd hfd (by simp)
  rcases hd with h4 | h4 | h4 | h4
  · exact main 0 1 h4 (by decide)
  · exact main 1 0 h4 (by decide)
  · exact main 0 (-1) h4 (by decide)
  · exact main (-1) 0 h4 (by decide)

theorem getD_mem_or (l : List Entry) (i : Nat) (d : Entry) :
    l.getD i d ∈ l ∨ l.getD i d = d := by
  rw [List.getD_eq_get? l i d]
  cases hg : l.get? i with
  | none => right; simp
  | some x =>
    left
    simp only [hg, Option.getD_some]
    exact List.get?_mem hg

theorem siftdownLoop_subset :
    ∀ (fuel startpos : Nat) (newitem : Entry) (heap : List Entry) (pos : Nat)
      (out : List Entry),
      siftdownLoop fuel startpos newitem heap pos = .ok out →
      ∀ e ∈ out, e ∈ heap ∨ e = newitem := by
  intro fuel
  induction fuel with
  | zero => intro _ _ _ _ _ h; exact absurd h (by rw [siftdownLoop]; simp)
  | succ fuel ih =>
    intro startpos newitem heap pos out h e he
    rw [siftdownLoop] at h
    split at h
    · dsimp only at h
      cases hc : entryLt newitem (heap.getD ((pos - 1) / 2) newitem) with
      | error err => rw [hc] at h; exact absurd h (by simp)
      | ok b =>
        rw [hc] at h
        cases b with
        | true =>
          rcases ih startpos newitem _ _ out h e he with hm | hm
          · rcases List.mem_or_eq_of_mem_set hm with hm2 | hm2
            · exact Or.inl hm2
            · rcases getD_mem_or heap ((pos - 1) / 2) newitem with hg | hg
              · exact Or.inl (hm2 ▸ hg)
              · exact Or.inr (hm2.trans hg)
          · exact Or.inr hm
        | false =>
          injection h with hout
          subst hout
          rcases List.mem_or_eq_of_mem_set he with hm | hm
          · exact Or.inl hm
          · exact Or.inr hm
    · injection h with hout
      subst hout
      rcases List.mem_or_eq_of_mem_set he with hm | hm
      · exact Or.inl hm
      · exact Or.inr hm

theorem siftupLoop_subset :
    ∀ (fuel endpos startpos : Nat) (newitem : Entry) (heap : List Entry) (pos : Nat)
      (out : List Entry),
      siftupLoop fuel endpos startpos newitem heap pos = .ok out →
      ∀ e ∈ out, e ∈ heap ∨ e = newitem := by
  intro fuel
  induction fuel with
  | zero => intro _ _ _ _ _ _ h; exact absurd h (by rw [siftupLoop]; simp)
  | succ fuel ih =>
    intro endpos startpos newitem heap pos out h e he
    rw [siftupLoop] at h
    split at h
    · rename_i hchild
      dsimp only at h
      by_cases hr : 2 * pos + 1 + 1 < endpos
      · rw [if_pos hr] at h
        cases hc : entryLt (heap.getD (2 * pos + 1) newitem)
            (heap.getD (2 * pos + 1 + 1) newitem) with
        | error err => rw [hc] at h; exact absurd h (by simp)
        | ok b =>
          rw [hc] at h
          cases b with
          | true =>
            dsimp only at h
            rcases ih endpos startpos newitem _ _ out h e he with hm | hm
            · rcases List.mem_or_eq_of_mem_set hm with hm2 | hm2
              · exact Or.inl hm2
              · rcases getD_mem_or heap (2 * pos + 1) newitem with hg | hg
                · exact Or.inl (hm2 ▸ hg)
                · exact Or.inr (hm2.trans hg)
            · exact Or.inr hm
          | false =>
            dsimp only at h
            rcases ih endpos startpos newitem _ _ out h e he with hm | hm
            · rcases List.mem_or_eq_of_mem_set hm with hm2 | hm2
              · exact Or.inl hm2
              · rcases getD_mem_or heap (2 * pos + 1 + 1) newitem with hg | hg
                · exact Or.inl (hm2 ▸ hg)
                · exact Or.inr (hm2.trans hg)
            · exact Or.inr hm
      · rw [if_neg hr] at h
        dsimp only at h
        rcases ih endpos startpos newitem _ _ out h e he with hm | hm
        · rcases List.mem_or_eq_of_mem_set hm with hm2 | hm2
          · exact Or.inl hm2
          · rcases getD_mem_or heap (2 * pos + 1) newitem with hg | hg
            · exact Or.inl (hm2 ▸ hg)
            · exact Or.inr (hm2.trans hg)
        · exact Or.inr hm
    · rcases siftdownLoop_subset _ _ _ _ _ out h e he with hm | hm
      · rcases List.mem_or_eq_of_mem_set hm with hm2 | hm2
        · exact Or.inl hm2
        · exact Or.inr hm2
      · exact Or.inr hm

theorem heappush_subset (heap : List Entry) (item : Entry) (out : List Entry)
    (h : heappush heap item = .ok out) : ∀ e ∈ out, e ∈ heap ∨ e = item := by
  intro e he
  rcases siftdownLoop_subset _ _ _ _ _ out h e he with hm | hm
  · rcases List.mem_append.mp hm with hm2 | hm2
    · exact Or.inl hm2
    · exact Or.inr (List.mem_singleton.mp hm2)
  · exact Or.inr hm

theorem heappop_subset (heap : List Entry) (it : Entry) (out : List Entry)
    (h : heappop heap = .ok (it, out)) : it ∈ heap ∧ ∀ e ∈ out, e ∈ heap := by
  rw [heappop] at h
  cases hl : heap.getLast? with
  | none => rw [hl] at h; exact absurd h (by simp)
  | some lastelt =>
    rw [hl] at h
    have hlastmem : lastelt ∈ heap := List.mem_of_getLast?_eq_some hl
    cases hd : heap.dropLast with
    | nil =>
      rw [hd] at h
      injection h with hpair
      injection hpair with h1 h2
      subst h1; subst h2
      exact ⟨hlastmem, fun e he => absurd he (List.not_mem_nil e)⟩
    | cons r0 rtail =>
      rw [hd] at h
      have hdropmem : ∀ e ∈ r0 :: rtail, e ∈ heap := by
        intro e he
        rw [← hd] at he
        exact List.dropLast_subset heap he
      have hsetmem : ∀ e ∈ (r0 :: rtail).set 0 lastelt, e ∈ heap := by
        intro e he
        rcases List.mem_or_eq_of_mem_set he with hm | hm
        · exact hdropmem e hm
        · exact hm ▸ hlastmem
      dsimp only at h
      cases hg : ((r0 :: rtail).set 0 lastelt).get? 0 with
      | none => rw [hg] at h; exact absurd h (by simp)
      | some newitem =>
        rw [hg] at h
        dsimp only at h
        have hnimem : newitem ∈ heap :=
          hsetmem newitem (List.get?_mem hg)
        cases hsift : siftupLoop (((r0 :: rtail).set 0 lastelt).length + 1)
            ((r0 :: rtail).set 0 lastelt).length 0 newitem
            ((r0 :: rtail).set 0 lastelt) 0 with
        | error err => rw [hsift] at h; exact absurd h (by simp)
        | ok h3 =>
          rw [hsift] at h
          injection h with hpair
          injection hpair with h1 h2
          subst h1; subst h2
          refine ⟨hdropmem r0 (List.mem_cons_self r0 rtail), fun e he => ?_⟩
          rcases siftupLoop_subset _ _ _ _ _ _ _ hsift e he with hm | hm
          · exact hsetmem e hm
          · exact hm ▸ hnimem

theorem entryOk_mono {start : Pos} {cf cf' : List ((Int × Int) × Pos)} {e : Entry}
    (hm : ∀ k, (∃ v, (k, v) ∈ cf) → ∃ v', (k, v') ∈ cf')
    (h : EntryOk start cf e) : EntryOk start cf' e :=
  h.imp id (fun hw => hm _ hw)

theorem processNeighbors_inv (pl : PathPlanner) (goal current start : Pos) :
    ∀ (ns : List Pos) (os : List Entry) (cf : List ((Int × Int) × Pos))
      (gs fs : List ((Int × Int) × Nat))
      (out : List Entry × List ((Int × Int) × Pos) ×
        List ((Int × Int) × Nat) × List ((Int × Int) × Nat)),
      (∀ n ∈ ns, n ∈ pl.get_neighbors current) →
      CFInv pl start cf →
      (current = start ∨ ∃ w, (keyOf current, w) ∈ cf) →
      (∀ e ∈ os, EntryOk start cf e) →
      processNeighbors pl goal current ns os cf gs fs = .ok out →
      CFInv pl start out.2.1 ∧ (∀ e ∈ out.1, EntryOk start out.2.1 e) ∧
      (∀ k, (∃ v, (k, v) ∈ cf) → ∃ v', (k, v') ∈ out.2.1) := by
  intro ns
  induction ns with
  | nil =>
    intro os cf gs fs out hns hcf hcur hos h
    rw [processNeighbors] at h
    injection h with hout
    subst hout
    exact ⟨hcf, hos, fun k hk => hk⟩
  | cons neighbor rest ih =>
    intro os cf gs fs out hns hcf hcur hos h
    rw [processNeighbors] at h
    cases hgc : alget gs (keyOf current) with
    | none => rw [hgc] at h; exact Except.noConfusion h
    | some gcur =>
      rw [hgc] at h
      dsimp only at h
      split at h
      · split at h
        · exact Except.noConfusion h
        · rename_i fval hfv
          split at h
          · exact Except.noConfusion h
          · rename_i os1 hpush
            have hmono1 : ∀ k, (∃ v, (k, v) ∈ cf) →
                ∃ v', (k, v') ∈ alset cf (keyOf neighbor) current :=
              fun k hk => keys_mono_alset _ _ hk
            have hcf1 : CFInv pl start (alset cf (keyOf neighbor) current) := by
              intro kv hkv
              rcases mem_alset hkv with hin | heq
              · rcases hcf kv hin with ⟨h1, h2⟩
                exact ⟨h1, h2.imp id (fun hw => hmono1 _ hw)⟩
              · subst heq
                refine ⟨⟨neighbor, rfl, hns neighbor (List.mem_cons_self _ _)⟩, ?_⟩
                exact hcur.imp id (fun hw => hmono1 _ hw)
            have hcur1 : current = start ∨
                ∃ w, (keyOf current, w) ∈ alset cf (keyOf neighbor) current :=
              hcur.imp id (fun hw => hmono1 _ hw)
            have hos1 : ∀ e ∈ os1, EntryOk start (alset cf (keyOf neighbor) current) e := by
              intro e he
              rcases heappush_subset os (fval, neighbor) os1 hpush e he with hm | hm
              · exact entryOk_mono hmono1 (hos e hm)
              · subst hm
                exact Or.inr (key_mem_alset cf (keyOf neighbor) current)
            rcases ih os1 (alset cf (keyOf neighbor) current) _ _ out
              (fun n hn => hns n (List.mem_cons_of_mem _ hn)) hcf1 hcur1 hos1 h
              with ⟨hc, ho, hm⟩
            exact ⟨hc, ho, fun k hk => hm k (hmono1 k hk)⟩
      · exact ih os cf gs fs out (fun n hn => hns n (List.mem_cons_of_mem _ hn))
          hcf hcur hos h

theorem reconstructLoop_spec (pl : PathPlanner) (start g0 : Pos)
    (cf : List ((Int × Int) × Pos))
    (hcf : CFInv pl start cf) (hstart : validCell pl start) :
    ∀ (fuel : Nat) (c : Pos) (path : List Pos) (out : List Pos),
      (c = start ∨ ∃ w, (keyOf c, w) ∈ cf) →
      List.Chain' (fun a b => (keyOf a, b) ∈ cf) (path ++ [c]) →
      (path ++ [c]).head? = some g0 →
      (∀ q ∈ path, validCell pl q) →
      reconstructLoop fuel cf start c path = .ok out →
      out.head? = some start ∧ out.getLast? = some g0 ∧
      (∀ q ∈ out, validCell pl q) ∧ List.Chain' adjacentStep out := by
  intro fuel
  induction fuel with
  | zero =>
    intro c path out _ _ _ _ h
    exact absurd h (by rw [reconstructLoop]; simp)
  | succ fuel ih =>
    intro c path out hc hchain hhead hvalid h
    rw [reconstructLoop] at h
    cases hget : alget cf (keyOf c) with
    | some prev =>
      rw [hget] at h
      have hedge : (keyOf c, prev) ∈ cf := alget_mem hget
      have hcval : validCell pl c := by
        rcases (hcf _ hedge).1 with ⟨n, hkn, hnn⟩
        have : n = c := keyOf_inj hkn
        exact this ▸ (mem_get_neighbors hnn).1
      have hprev : prev = start ∨ ∃ w, (keyOf prev, w) ∈ cf := (hcf _ hedge).2
      have hchain2 : List.Chain' (fun a b => (keyOf a, b) ∈ cf)
          ((path ++ [c]) ++ [prev]) := by
        rw [List.chain'_append]
        refine ⟨hchain, List.chain'_singleton prev, ?_⟩
        intro x hx y hy
        rw [List.getLast?_concat] at hx
        simp only [List.head?_cons, Option.mem_def, Option.some.injEq] at hx hy
        rw [hx, hy] at hedge
        exact hedge
      have hhead2 : ((path ++ [c]) ++ [prev]).head? = some g0 := by
        rw [List.head?_append]
        rw [hhead]
        rfl
      have hvalid2 : ∀ q ∈ path ++ [c], validCell pl q := by
        intro q hq
        rcases List.mem_append.mp hq with hm | hm
        · exact hvalid q hm
        · rcases List.mem_singleton.mp hm with rfl
          exact hcval
      have := ih prev (path ++ [c]) out hprev (by rw [List.append_assoc] at hchain2 ⊢; exact hchain2)
        (by rw [List.append_assoc] at hhead2 ⊢; exact hhead2) hvalid2 h
      exact this
    | none =>
      rw [hget] at h
      injection h with hout
      have hcstart : c = start := by
        rcases hc with h1 | ⟨w, hw⟩
        · exact h1
        · exact absurd hw (alget_eq_none hget w)
      subst hcstart
      subst hout
      refine ⟨?_, ?_, ?_, ?_⟩
      · rw [List.head?_reverse, List.getLast?_concat]
      · rw [List.getLast?_reverse, hhead]
      · intro q hq
        rw [List.mem_reverse] at hq
        rcases List.mem_append.mp hq with hm | hm
        · exact hvalid q hm
        · rcases List.mem_singleton.mp hm with rfl
          exact hstart
      · rw [List.chain'_reverse]
        refine List.Chain'.imp ?_ hchain
        intro a b hab
        rcases (hcf _ hab).1 with ⟨n, hkn, hnn⟩
        have hna : n = a := keyOf_inj hkn
        subst hna
        show adjacentStep b n
        exact (mem_get_neighbors hnn).2

theorem aStarLoop_valid (pl : PathPlanner) (start goal : Pos)
    (hstart : validCell pl start) :
    ∀ (fuel : Nat) (os : List Entry) (cf : List ((Int × Int) × Pos))
      (gs fs : List ((Int × Int) × Nat)) (path : List Pos),
      CFInv pl start cf →
      (∀ e ∈ os, EntryOk start cf e) →
      aStarLoop pl start goal fuel os cf gs fs = .ok path →
      path ≠ [] →
      validGridPath pl start goal path := by
  intro fuel
  induction fuel with
  | zero =>
    intro os cf gs fs path _ _ h _
    exact absurd h (by rw [aStarLoop.eq_def]; simp)
  | succ fuel ih =>
    intro os cf gs fs path hcf hos h hne
    rw [aStarLoop.eq_def] at h
    dsimp only at h
    cases os with
    | nil =>
      dsimp only at h
      injection h with hout
      exact absurd hout.symm hne
    | cons o0 os' =>
      dsimp only at h
      cases hp : heappop (o0 :: os') with
      | error e => rw [hp] at h; exact Except.noConfusion h
      | ok pr =>
        obtain ⟨⟨f0, current⟩, rest⟩ := pr
        rw [hp] at h
        dsimp only at h
        have hpop := heappop_subset (o0 :: os') (f0, current) rest hp
        have hcur : EntryOk start cf (f0, current) := hos _ hpop.1
        have hrest : ∀ e ∈ rest, EntryOk start cf e :=
          fun e he => hos e (hpop.2 e he)
        split at h
        · rename_i hgoal
          have hcg : current = goal := pos_ext hgoal.1 hgoal.2
          have hrec := reconstructLoop_spec pl start current cf hcf hstart
            (cf.length + 1) current [] path hcur
            (by simp)
            (by simp) (fun q hq => absurd hq (List.not_mem_nil q)) h
          rw [hcg] at hrec
          exact ⟨hrec.1, hrec.2.1, hrec.2.2.1, hrec.2.2.2⟩
        · cases hpn : processNeighbors pl goal current (pl.get_neighbors current)
              rest cf gs fs with
          | error e => rw [hpn] at h; exact Except.noConfusion h
          | ok st =>
            obtain ⟨os1, cf1, gs1, fs1⟩ := st
            rw [hpn] at h
            dsimp only at h
            have hinv := processNeighbors_inv pl goal current start
              (pl.get_neighbors current) rest cf gs fs (os1, cf1, gs1, fs1)
              (fun n hn => hn) hcf hcur hrest hpn
            exact ih os1 cf1 gs1 fs1 path hinv.1 hinv.2.1 h hne

/-- C10: whenever `a_star_path` returns a nonempty list for in-bounds start
and goal positions, that list is a valid grid path: it starts at `start`,
ends at `goal`, visits only in-bounds non-obstacle cells, and moves by
4-adjacent unit steps. -/
theorem a_star_ok_path_is_valid_grid_path (pl : PathPlanner) (fuel : Nat)
    (start goal : Pos) (path : List Pos)
    (hs : inBounds pl start) (_hg : inBounds pl goal)
    (hok : pl.a_star_path fuel start goal = .ok path) (hne : path ≠ []) :
    validGridPath pl start goal path := by
  rw [PathPlanner.a_star_path] at hok
  split at hok
  · injection hok with hout
    exact absurd hout.symm hne
  · rename_i hobs
    push_neg at hobs
    have hstart : validCell pl start := ⟨hs, hobs.1⟩
    exact aStarLoop_valid pl start goal hstart fuel _ _ _ _ path
      (fun kv hkv => absurd hkv (List.not_mem_nil kv))
      (fun e he => by
        rcases List.mem_singleton.mp he with rfl
        exact Or.inl rfl)
      hok hne

/-- C10 witness: on the obstacle-free 4×1 line grid (where no f-score ties
arise), the search returns the 4-position path, and the theorem yields its
validity. -/
theorem a_star_ok_path_is_valid_grid_path_witness :
    (inBounds gridLine ⟨0, 0⟩ ∧ inBounds gridLine ⟨3, 0⟩ ∧
     gridLine.a_star_path 100 ⟨0, 0⟩ ⟨3, 0⟩ =
       .ok [⟨0, 0⟩, ⟨1, 0⟩, ⟨2, 0⟩, ⟨3, 0⟩] ∧
     ([⟨0, 0⟩, ⟨1, 0⟩, ⟨2, 0⟩, ⟨3, 0⟩] : List Pos) ≠ []) ∧
    validGridPath gridLine ⟨0, 0⟩ ⟨3, 0⟩ [⟨0, 0⟩, ⟨1, 0⟩, ⟨2, 0⟩, ⟨3, 0⟩] :=
  ⟨⟨by decide, by decide, rfl, by decide⟩,
   a_star_ok_path_is_valid_grid_path gridLine 100 ⟨0, 0⟩ ⟨3, 0⟩
     [⟨0, 0⟩, ⟨1, 0⟩, ⟨2, 0⟩, ⟨3, 0⟩] (by decide) (by decide) rfl (by decide)⟩
